import Mathlib

/-!
# logFormatter: the fieldin text formatter for logrus

A shallow embedding of `formatter.go` (package `logFormatter`) together with the
pieces of the Go standard library and of logrus that it calls:

* Go strings and byte buffers are lists of bytes (`GoString`), a byte being a
  natural number below 256;
* `log.Fields` (a Go map) is an association list with distinct keys; the order
  in which a `range` loop visits the keys is left to the runtime (`GoRuntime`);
* `Format` and `printLogLine` thread the buffer and the entry explicitly,
  because `printLogLine` assigns to `entry.Message` and writes to the buffer.
-/

/-- A Go string or byte slice: the list of its bytes (naturals below 256). -/
abbrev GoString := List Nat

/-- The bytes of an ASCII literal. -/
def ascii (s : String) : GoString := s.toList.map Char.toNat

/-! ## unicode/utf8 -/

namespace utf8

/-- The constant `RuneError` (U+FFFD). -/
def RuneError : Nat := 0xFFFD

/-- The constant `RuneSelf`: bytes below it are single-byte runes. -/
def RuneSelf : Nat := 0x80

/-- The constant `MaxRune`. -/
def MaxRune : Nat := 0x10FFFF

/-- The table `first`, by ranges of the leading byte: `0xF0` is ASCII (`as`),
`0xF1` is invalid (`xx`); otherwise the low three bits are the size of the
encoding and the high four bits index `acceptRanges`. -/
def first (b : Nat) : Nat :=
  if b < 0x80 then 0xF0
  else if b < 0xC2 then 0xF1
  else if b < 0xE0 then 0x02
  else if b = 0xE0 then 0x13
  else if b < 0xED then 0x03
  else if b = 0xED then 0x23
  else if b < 0xF0 then 0x03
  else if b = 0xF0 then 0x34
  else if b < 0xF4 then 0x04
  else if b = 0xF4 then 0x44
  else 0xF1

/-- The table `acceptRanges`: the bounds `(lo, hi)` for the second byte. -/
def acceptRanges (i : Nat) : Nat × Nat :=
  match i with
  | 0 => (0x80, 0xBF)
  | 1 => (0xA0, 0xBF)
  | 2 => (0x80, 0x9F)
  | 3 => (0x90, 0xBF)
  | 4 => (0x80, 0x8F)
  | _ => (0, 0)

/-- The function `utf8.DecodeRuneInString`: the first rune of `s` and its width in
bytes; `(RuneError, 1)` for an invalid encoding, `(RuneError, 0)` for the
empty string. The masks and shifts of the source are written as `%` and `*`. -/
def DecodeRuneInString (s : GoString) : Nat × Nat :=
  match s with
  | [] => (RuneError, 0)
  | s0 :: _ =>
    let n := s.length
    let x := first s0
    if x ≥ 0xF0 then
      (if x = 0xF0 then s0 else RuneError, 1)
    else
      let sz := x % 8
      let accept := acceptRanges (x / 16)
      if n < sz then (RuneError, 1)
      else
        let s1 := s.getD 1 0
        if s1 < accept.1 ∨ accept.2 < s1 then (RuneError, 1)
        else if sz ≤ 2 then ((s0 % 32) * 64 + s1 % 64, 2)
        else
          let s2 := s.getD 2 0
          if s2 < 0x80 ∨ 0xBF < s2 then (RuneError, 1)
          else if sz ≤ 3 then ((s0 % 16) * 4096 + (s1 % 64) * 64 + s2 % 64, 3)
          else
            let s3 := s.getD 3 0
            if s3 < 0x80 ∨ 0xBF < s3 then (RuneError, 1)
            else ((s0 % 8) * 262144 + (s1 % 64) * 4096 + (s2 % 64) * 64 + s3 % 64, 4)

/-- The function `utf8.AppendRune`, as the bytes it appends: the UTF-8 encoding of
`r`, with `RuneError` encoded for surrogates and out-of-range runes. -/
def AppendRune (r : Nat) : GoString :=
  if r ≤ 0x7F then [r]
  else if r ≤ 0x7FF then [0xC0 + r / 64, 0x80 + r % 64]
  else if r > MaxRune ∨ (0xD800 ≤ r ∧ r ≤ 0xDFFF) then
    [0xE0 + RuneError / 4096, 0x80 + (RuneError / 64) % 64, 0x80 + RuneError % 64]
  else if r ≤ 0xFFFF then [0xE0 + r / 4096, 0x80 + (r / 64) % 64, 0x80 + r % 64]
  else [0xF0 + r / 262144, 0x80 + (r / 4096) % 64, 0x80 + (r / 64) % 64, 0x80 + r % 64]

/-- The function `utf8.ValidRune`. -/
def ValidRune (r : Nat) : Bool :=
  if r < 0xD800 then true
  else if 0xDFFF < r ∧ r ≤ MaxRune then true
  else false

end utf8

/-- What the Go runtime and library leave open here: the Unicode tables behind
`strconv.IsPrint` for runes above U+00FF, and the order in which a `range` loop
visits the keys of a map (some rearrangement of the keys). -/
structure GoRuntime where
  isPrintTable : Nat → Bool
  mapRange : List GoString → List GoString
  mapRange_perm : ∀ l, (mapRange l).Perm l

/-- A runtime whose `range` loops visit the keys in the order they are stored and
whose `IsPrint` tables hold no rune above U+00FF. -/
def GoRuntime.plain : GoRuntime where
  isPrintTable := fun _ => false
  mapRange := fun l => l
  mapRange_perm := fun l => List.Perm.refl l

/-! ## strconv -/

namespace strconv

/-- The digits `lowerhex`. -/
def lowerhex (x : Nat) : Nat := if x % 16 < 10 then 48 + x % 16 else 87 + x % 16

/-- The function `strconv.IsPrint`: the Latin-1 fast path is the source's; above U+00FF
the answer comes from the Unicode tables. -/
def IsPrint (rt : GoRuntime) (r : Nat) : Bool :=
  if r ≤ 0xFF then
    if 0x20 ≤ r ∧ r ≤ 0x7E then true
    else if 0xA1 ≤ r ∧ r ≤ 0xFF then r != 0xAD
    else false
  else rt.isPrintTable r

/-- The function `appendEscapedRune` with `ASCIIonly` and `graphicOnly` false, as
the bytes it appends for the rune `r` inside quotes `quote`. -/
def appendEscapedRune (rt : GoRuntime) (r : Nat) (quote : Nat) : GoString :=
  if r = quote ∨ r = 92 then [92, r % 256]
  else if IsPrint rt r then utf8.AppendRune r
  else if r = 7 then [92, 97]
  else if r = 8 then [92, 98]
  else if r = 12 then [92, 102]
  else if r = 10 then [92, 110]
  else if r = 13 then [92, 114]
  else if r = 9 then [92, 116]
  else if r = 11 then [92, 118]
  else if r < 32 ∨ r = 0x7F then [92, 120, lowerhex (r % 256 / 16), lowerhex (r % 16)]
  else
    let r := if utf8.ValidRune r then r else utf8.RuneError
    if r < 0x10000 then
      [92, 117, lowerhex (r / 4096), lowerhex (r / 256), lowerhex (r / 16), lowerhex r]
    else
      [92, 85, lowerhex (r / 268435456), lowerhex (r / 16777216), lowerhex (r / 1048576),
        lowerhex (r / 65536), lowerhex (r / 4096), lowerhex (r / 256), lowerhex (r / 16),
        lowerhex r]

/-- The loop of `appendQuotedWith`, as the bytes it appends between the quotes.
Each round decodes the rune at the head of what is left of `s`, writes it
escaped, and moves on by its width; `skip` counts the bytes of the rune just
written that are still to be stepped over. -/
def quoteBody (rt : GoRuntime) (quote : Nat) : Nat → GoString → GoString
  | _, [] => []
  | skip + 1, _ :: rest => quoteBody rt quote skip rest
  | 0, s0 :: rest =>
    let rw := if s0 ≥ utf8.RuneSelf then utf8.DecodeRuneInString (s0 :: rest) else (s0, 1)
    if rw.2 = 1 ∧ rw.1 = utf8.RuneError then
      [92, 120, lowerhex (s0 / 16), lowerhex (s0 % 16)] ++ quoteBody rt quote 0 rest
    else
      appendEscapedRune rt rw.1 quote ++ quoteBody rt quote (rw.2 - 1) rest

/-- The function `strconv.Quote`: `s` as a double-quoted Go string literal. -/
def Quote (rt : GoRuntime) (s : GoString) : GoString :=
  [34] ++ quoteBody rt 34 0 s ++ [34]

end strconv

/-! ## strings, fmt -/

namespace strings

/-- The function `strings.ToUpper` on ASCII text (the fast path of the source): each byte
from `a` to `z` is moved to its capital. -/
def ToUpper (s : GoString) : GoString :=
  s.map fun c => if 97 ≤ c ∧ c ≤ 122 then c - 32 else c

/-- The function `strings.TrimSuffix`: `s` without the trailing `suffix`, if it ends with it. -/
def TrimSuffix (s suffix : GoString) : GoString :=
  if suffix.isSuffixOf s then s.take (s.length - suffix.length) else s

end strings

/-- A value of type `interface{}` held by a field, as far as formatting can
tell values apart: a string, an error with its message, the nil interface, or
a value of another type given by the text `fmt.Sprint` prints for it. -/
inductive Value where
  | str (s : GoString)
  | err (msg : GoString)
  | nil
  | other (sprint : GoString)
  deriving DecidableEq, Repr

namespace fmt

/-- The function `fmt.Sprint` of one operand. -/
def Sprint : Value → GoString
  | .str s => s
  | .err msg => msg
  | .nil => ascii "<nil>"
  | .other t => t

/-- The decimal digits of `n`, most significant first; `fuel` bounds the number
of digits. -/
def digits : Nat → Nat → GoString → GoString
  | 0, _, acc => acc
  | fuel + 1, n, acc =>
    if n < 10 then (48 + n) :: acc else digits fuel (n / 10) ((48 + n % 10) :: acc)

/-- The verb `%d` applied to an `int`. -/
def formatInt (i : Int) : GoString :=
  if i < 0 then 45 :: digits (i.natAbs + 1) i.natAbs [] else digits (i.natAbs + 1) i.natAbs []

end fmt

/-! ## logrus -/

namespace log

/-- The type `logrus.Fields`, a `map[string]interface{}`: distinct keys, each with a value. -/
abbrev Fields := AList (fun _ : GoString => Value)

/-- The part of `logrus.Logger` that `HasCaller` reads. -/
structure Logger where
  ReportCaller : Bool

/-- The type `runtime.Frame`, as far as the formatter reads it. -/
structure Frame where
  Function : GoString
  File : GoString
  Line : Int

/-- A `time.Time`, given by its method `Format`. -/
structure Time where
  Format : GoString → GoString

/-- The type `logrus.Entry`. `Buffer` is `none` for a nil pointer and otherwise holds the
bytes already in the buffer. -/
structure Entry where
  Logger : Option Logger
  Data : Fields
  Time : Time
  Level : Nat
  Caller : Option Frame
  Message : GoString
  Buffer : Option GoString

/-- The method `Entry.HasCaller`. -/
def Entry.HasCaller (entry : Entry) : Bool :=
  match entry.Logger with
  | none => false
  | some l => l.ReportCaller && entry.Caller.isSome

/-- The method `Level.String`: the names of the levels 0 (panic) to 6 (trace), and
`unknown` for any other number. -/
def Level.String (level : Nat) : GoString :=
  match level with
  | 0 => ascii "panic"
  | 1 => ascii "fatal"
  | 2 => ascii "error"
  | 3 => ascii "warning"
  | 4 => ascii "info"
  | 5 => ascii "debug"
  | 6 => ascii "trace"
  | _ => ascii "unknown"

def FieldKeyMsg : GoString := ascii "msg"
def FieldKeyLevel : GoString := ascii "level"
def FieldKeyTime : GoString := ascii "time"
def FieldKeyLogrusError : GoString := ascii "logrus_error"
def FieldKeyFunc : GoString := ascii "func"
def FieldKeyFile : GoString := ascii "file"

end log

/-! ## formatter.go -/

def defaultTimestampFormat : GoString := ascii "2006-01-02T15:04:05.000"

/-- The type `FieldinFormatter`. -/
structure FieldinFormatter where
  DisableTimestamp : Bool
  FullTimestamp : Bool
  TimestampFormat : GoString

/-- An error value; `Format` has none to return. -/
structure GoError where
  msg : GoString

/-- A map index expression `data[k]`: the nil interface when `k` is not a key. -/
def log.Fields.index (data : log.Fields) (k : GoString) : Value :=
  (data.lookup k).getD Value.nil

/-- The function `prefixFieldClashes`, returning the map it leaves behind. -/
def prefixFieldClashes (data : log.Fields) (reportCaller : Bool) : log.Fields :=
  let timeKey := log.FieldKeyTime
  let data := match data.lookup timeKey with
    | some t => (data.insert (ascii "fields." ++ timeKey) t).erase timeKey
    | none => data
  let msgKey := log.FieldKeyMsg
  let data := match data.lookup msgKey with
    | some m => (data.insert (ascii "fields." ++ msgKey) m).erase msgKey
    | none => data
  let levelKey := log.FieldKeyLevel
  let data := match data.lookup levelKey with
    | some l => (data.insert (ascii "fields." ++ levelKey) l).erase levelKey
    | none => data
  let logrusErrKey := log.FieldKeyLogrusError
  let data := match data.lookup logrusErrKey with
    | some l => (data.insert (ascii "fields." ++ logrusErrKey) l).erase logrusErrKey
    | none => data
  if reportCaller then
    let funcKey := log.FieldKeyFunc
    let data := match data.lookup funcKey with
      | some l => data.insert (ascii "fields." ++ funcKey) l
      | none => data
    let fileKey := log.FieldKeyFile
    let data := match data.lookup fileKey with
      | some l => data.insert (ascii "fields." ++ fileKey) l
      | none => data
    data
  else data

namespace FieldinFormatter

/-- The method `appendValue`: the buffer after the write. -/
def appendValue (rt : GoRuntime) (_f : FieldinFormatter) (b : GoString) (value : Value) :
    GoString :=
  let stringVal := match value with
    | .str s => s
    | v => fmt.Sprint v
  b ++ strconv.Quote rt stringVal

/-- The method `appendKeyValue` (no caller in this package). -/
def appendKeyValue (rt : GoRuntime) (f : FieldinFormatter) (b : GoString) (key : GoString)
    (value : Value) : GoString :=
  let b := if b.length > 0 then b ++ [32] else b
  let b := b ++ key
  let b := b ++ [61]
  appendValue rt f b value

/-- The method `printLogLine`: the buffer after the writes, and the entry with its
`Message` reassigned. -/
def printLogLine (rt : GoRuntime) (f : FieldinFormatter) (b : GoString) (entry : log.Entry)
    (keys : List GoString) (data : log.Fields) (timestampFormat : GoString) :
    GoString × log.Entry :=
  let levelText := strings.ToUpper (log.Level.String entry.Level)
  let entry := { entry with Message := strings.TrimSuffix entry.Message (ascii "\n") }
  let caller : GoString :=
    match entry.HasCaller, entry.Caller with
    | true, some c =>
      let funcVal := c.Function ++ ascii "()"
      let fileVal := c.File ++ ascii ":" ++ fmt.formatInt c.Line
      if fileVal = [] then funcVal
      else if funcVal = [] then fileVal
      else fileVal ++ ascii " " ++ funcVal
    | _, _ => []
  let b := b ++ entry.Time.Format timestampFormat ++ [32] ++ levelText
  let b := if entry.HasCaller ∧ caller ≠ [] then b ++ [32] ++ caller else b
  let loop := keys.foldl
    (fun (st : GoString × Bool) k =>
      let v := data.index k
      (appendValue rt f (st.1 ++ [32] ++ k ++ [61]) v, true))
    (b, false)
  let b := loop.1
  let addSemiColon := loop.2
  let b := if addSemiColon then b ++ ascii " ;" else b
  let b := if entry.Message ≠ [] then b ++ [32] ++ entry.Message else b
  (b, entry)

/-- The slice `fixedKeys` that `Format` builds; `Format` does not read it afterwards. -/
def fixedKeys (f : FieldinFormatter) (entry : log.Entry) (data : log.Fields)
    (keys : List GoString) : List GoString :=
  let fixedKeys : List GoString := []
  let fixedKeys := if !f.DisableTimestamp then fixedKeys ++ [log.FieldKeyTime] else fixedKeys
  let fixedKeys := fixedKeys ++ [log.FieldKeyLevel]
  let fixedKeys := if entry.Message ≠ [] then fixedKeys ++ [log.FieldKeyMsg] else fixedKeys
  let fixedKeys :=
    match data.lookup log.FieldKeyLogrusError with
    | some err => if err ≠ Value.str [] then fixedKeys ++ [log.FieldKeyLogrusError] else fixedKeys
    | none => fixedKeys
  let fixedKeys :=
    match entry.HasCaller, entry.Caller with
    | true, some c =>
      let funcVal := c.Function
      let fileVal := c.File ++ ascii ":" ++ fmt.formatInt c.Line
      let fixedKeys := if funcVal ≠ [] then fixedKeys ++ [log.FieldKeyFunc] else fixedKeys
      if fileVal ≠ [] then fixedKeys ++ [log.FieldKeyFile] else fixedKeys
    | _, _ => fixedKeys
  fixedKeys ++ keys

/-- The copy `Format` makes of `entry.Data`: a fresh map filled key by key. -/
def copyFields (src : log.Fields) : log.Fields :=
  src.entries.foldl (fun (data : log.Fields) kv => data.insert kv.1 kv.2) ∅

/-- The local `timestampFormat` of `Format`: the configured pattern, or the default one
when none is configured. -/
def timestampFormat (f : FieldinFormatter) : GoString :=
  if f.TimestampFormat = [] then defaultTimestampFormat else f.TimestampFormat

/-- What a call of `Format` leaves: the returned bytes and error, and the entry
as the call left it. -/
structure FormatResult where
  bytes : GoString
  err : Option GoError
  entry : log.Entry

/-- The method `Format`. The copy of `entry.Data` is filled key by key; the keys of the
resolved map are then listed in the order the runtime visits them. -/
def Format (rt : GoRuntime) (f : FieldinFormatter) (entry : log.Entry) : FormatResult :=
  let data := copyFields entry.Data
  let data := prefixFieldClashes data entry.HasCaller
  let keys := rt.mapRange data.keys
  let _fixedKeys := fixedKeys f entry data keys
  let b : GoString := match entry.Buffer with
    | some p => p
    | none => []
  let timestampFormat := timestampFormat f
  let r := printLogLine rt f b entry keys data timestampFormat
  let b := r.1 ++ [10]
  let entry := r.2
  { bytes := b
    err := none
    entry := { entry with Buffer := entry.Buffer.map fun _ => b } }

end FieldinFormatter

/-! ## Vocabulary of the statements -/

/-- The bytes a supplied buffer already holds when `Format` is called; none without a buffer. -/
def bufferBytes (entry : log.Entry) : GoString :=
  match entry.Buffer with
  | some p => p
  | none => []

/-- The field bag after collision resolution, as `Format` computes it for `entry`. -/
def resolvedData (entry : log.Entry) : log.Fields :=
  prefixFieldClashes (FieldinFormatter.copyFields entry.Data) entry.HasCaller

/-- The keys of the resolved field bag in the order the runtime enumerates them. -/
def resolvedKeys (rt : GoRuntime) (entry : log.Entry) : List GoString :=
  rt.mapRange (resolvedData entry).keys

/-- The quoted rendering of a field value. -/
def quoted (rt : GoRuntime) (v : Value) : GoString :=
  strconv.Quote rt (fmt.Sprint v)

/-- One field of a line: a space, the key, `=`, the quoted value. -/
def fieldText (rt : GoRuntime) (data : log.Fields) (k : GoString) : GoString :=
  [32] ++ k ++ [61] ++ quoted rt (data.index k)

/-- The call-site text `<file>:<line> <function>()` of a frame. -/
def callerText (c : log.Frame) : GoString :=
  c.File ++ ascii ":" ++ fmt.formatInt c.Line ++ ascii " " ++ c.Function ++ ascii "()"

/-- The call-site segment of a line: empty without call-site info. -/
def callerSegment (entry : log.Entry) : GoString :=
  match entry.HasCaller, entry.Caller with
  | true, some c => [32] ++ callerText c
  | _, _ => []

/-- The line the text of the specification describes for an entry without call-site
info: timestamp, space, level in capitals, the fields, ` ;` after at least one
field, space and message when the trimmed message is not empty, newline. -/
def specLine (rt : GoRuntime) (f : FieldinFormatter) (entry : log.Entry) : GoString :=
  let msg := strings.TrimSuffix entry.Message (ascii "\n")
  entry.Time.Format (FieldinFormatter.timestampFormat f) ++ [32]
    ++ strings.ToUpper (log.Level.String entry.Level)
    ++ ((resolvedKeys rt entry).map (fieldText rt (resolvedData entry))).flatten
    ++ (if resolvedKeys rt entry = [] then [] else ascii " ;")
    ++ (if msg = [] then [] else [32] ++ msg)
    ++ [10]

/-- One step of `prefixFieldClashes` for the keys it moves: when `key` is present its
value is stored under `"fields." + key` and `key` is deleted. -/
def moveKey (key : GoString) (data : log.Fields) : log.Fields :=
  match data.lookup key with
  | some t => (data.insert (ascii "fields." ++ key) t).erase key
  | none => data

/-- One step of `prefixFieldClashes` for `func` and `file`: when `key` is present its
value is stored under `"fields." + key`; `key` stays. -/
def copyKey (key : GoString) (data : log.Fields) : log.Fields :=
  match data.lookup key with
  | some l => data.insert (ascii "fields." ++ key) l
  | none => data

/-- The reserved names `prefixFieldClashes` looks for, given the flag. -/
def reservedNames (reportCaller : Bool) : List GoString :=
  [log.FieldKeyTime, log.FieldKeyMsg, log.FieldKeyLevel, log.FieldKeyLogrusError]
    ++ (if reportCaller then [log.FieldKeyFunc, log.FieldKeyFile] else [])

/-- The bytes escape sequences are made of: the quote, the backslash, `U`, the digits,
and the letters from `a` to `x`. -/
def escapeByte (c : Nat) : Prop :=
  c = 34 ∨ c = 92 ∨ c = 85 ∨ (48 ≤ c ∧ c ≤ 57) ∨ (97 ≤ c ∧ c ≤ 120)

/-- The number of places in `l` where the token `tok` starts. -/
def countToken (tok : GoString) : GoString → Nat
  | [] => 0
  | x :: xs => (if tok.isPrefixOf (x :: xs) then 1 else 0) + countToken tok xs

/-- The zero `time.Time`, whose text under the default layout is
`0001-01-01T00:00:00.000`; it is only formatted with that layout here. -/
def zeroTime : log.Time := ⟨fun _ => ascii "0001-01-01T00:00:00.000"⟩

/-- The formatter `&FieldinFormatter{}` of the tests. -/
def testFormatter : FieldinFormatter := ⟨false, false, []⟩

/-- The entry `log.WithField(key, value)` of the tests: the standard logger (which does
not report callers), one field, the zero time, level panic, no message, no buffer. -/
def log.WithField (key : GoString) (value : Value) : log.Entry :=
  { Logger := some ⟨false⟩
    Data := (∅ : log.Fields).insert key value
    Time := zeroTime
    Level := 0
    Caller := none
    Message := []
    Buffer := none }

/-- The entry `log.NewEntry(log.StandardLogger())`: no field, the zero time, level
panic, no message, no buffer. -/
def log.NewEntry : log.Entry :=
  { Logger := some ⟨false⟩
    Data := ∅
    Time := zeroTime
    Level := 0
    Caller := none
    Message := []
    Buffer := none }

/-- A runtime like `GoRuntime.plain` whose `range` loops visit the keys in the opposite
order. -/
def GoRuntime.reversed : GoRuntime where
  isPrintTable := fun _ => false
  mapRange := fun l => l.reverse
  mapRange_perm := fun l => List.reverse_perm l

/-- The entry `log.WithFields(log.Fields{"a": "1", "b": "2"})`: like `log.WithField`, with
two fields. -/
def log.WithTwoFields : log.Entry :=
  { Logger := some ⟨false⟩
    Data := ((∅ : log.Fields).insert (ascii "b") (.str (ascii "2"))).insert
      (ascii "a") (.str (ascii "1"))
    Time := zeroTime
    Level := 0
    Caller := none
    Message := []
    Buffer := none }

/-- The function `appendInt` of package time for a number that is not negative: its
decimal digits, with zeros in front up to `width`. -/
def time.appendInt (x width : Nat) : GoString :=
  List.replicate (width - (fmt.digits (x + 1) x []).length) 48 ++ fmt.digits (x + 1) x []

/-- A `time.Time` in the year `year`, given by its text under the layout `2006` (the
year written by `appendInt` with width 4); it is only formatted with that
layout here. -/
def time.inYear (year : Nat) : log.Time := ⟨fun _ => time.appendInt year 4⟩

/-- Whether `time.Parse("2006", value)` returns a nil error: the year is read from
exactly four bytes, which must be digits, and nothing may follow them
(otherwise the error is `extra text`). -/
def time.parsesLongYear (value : GoString) : Bool :=
  if value.length < 4 ∨ ¬ (48 ≤ value.headD 0 ∧ value.headD 0 ≤ 57) then false
  else if ¬ (value.take 4).all (fun c => decide (48 ≤ c ∧ c ≤ 57)) then false
  else (value.drop 4).isEmpty

/-! ## The line written by `printLogLine` -/

theorem appendValue_eq (rt : GoRuntime) (f : FieldinFormatter) (b : GoString) (v : Value) :
    FieldinFormatter.appendValue rt f b v = b ++ quoted rt v := by
  cases v <;> rfl

theorem printLogLine_loop (rt : GoRuntime) (f : FieldinFormatter) (data : log.Fields)
    (keys : List GoString) (b : GoString) (flag : Bool) :
    keys.foldl
      (fun (st : GoString × Bool) k =>
        (FieldinFormatter.appendValue rt f (st.1 ++ [32] ++ k ++ [61]) (data.index k), true))
      (b, flag)
    = (b ++ (keys.map (fieldText rt data)).flatten, flag || !keys.isEmpty) := by
  induction keys generalizing b flag with
  | nil => simp
  | cons k ks ih =>
    rw [List.foldl_cons, ih]
    simp [appendValue_eq, fieldText]

theorem hasCaller_message (entry : log.Entry) (m : GoString) :
    log.Entry.HasCaller { entry with Message := m } = entry.HasCaller := rfl

theorem ascii_colon : ascii ":" = [58] := rfl

theorem ascii_space : ascii " " = [32] := rfl

theorem ascii_parens : ascii "()" = [40, 41] := rfl

theorem ascii_semi : ascii " ;" = [32, 59] := rfl

theorem ascii_newline : ascii "\n" = [10] := rfl

/-- The buffer `printLogLine` leaves, segment by segment. -/
theorem printLogLine_fst (rt : GoRuntime) (f : FieldinFormatter) (b : GoString)
    (entry : log.Entry) (keys : List GoString) (data : log.Fields) (tf : GoString) :
    (FieldinFormatter.printLogLine rt f b entry keys data tf).1
      = b ++ entry.Time.Format tf ++ [32]
        ++ strings.ToUpper (log.Level.String entry.Level)
        ++ callerSegment entry
        ++ (keys.map (fieldText rt data)).flatten
        ++ (if keys = [] then [] else ascii " ;")
        ++ (if strings.TrimSuffix entry.Message (ascii "\n") = [] then []
            else [32] ++ strings.TrimSuffix entry.Message (ascii "\n")) := by
  unfold FieldinFormatter.printLogLine
  simp only [printLogLine_loop, hasCaller_message]
  unfold callerSegment callerText
  rcases keys with _ | ⟨k, ks⟩ <;>
  rcases hc : entry.HasCaller with _ | _ <;>
  rcases hcl : entry.Caller with _ | c <;>
  by_cases hm : strings.TrimSuffix entry.Message (ascii "\n") = [] <;>
  simp [hm, ascii_colon, ascii_space, ascii_parens, ascii_semi]

/-- The entry `printLogLine` leaves: only `Message` is reassigned. -/
theorem printLogLine_snd (rt : GoRuntime) (f : FieldinFormatter) (b : GoString)
    (entry : log.Entry) (keys : List GoString) (data : log.Fields) (tf : GoString) :
    (FieldinFormatter.printLogLine rt f b entry keys data tf).2
      = { entry with Message := strings.TrimSuffix entry.Message (ascii "\n") } := rfl

/-- The bytes `Format` returns, segment by segment. -/
theorem Format_bytes (rt : GoRuntime) (f : FieldinFormatter) (entry : log.Entry) :
    (FieldinFormatter.Format rt f entry).bytes
      = bufferBytes entry
        ++ entry.Time.Format (FieldinFormatter.timestampFormat f) ++ [32]
        ++ strings.ToUpper (log.Level.String entry.Level)
        ++ callerSegment entry
        ++ ((resolvedKeys rt entry).map (fieldText rt (resolvedData entry))).flatten
        ++ (if resolvedKeys rt entry = [] then [] else ascii " ;")
        ++ (if strings.TrimSuffix entry.Message (ascii "\n") = [] then []
            else [32] ++ strings.TrimSuffix entry.Message (ascii "\n"))
        ++ [10] := by
  have h : (FieldinFormatter.Format rt f entry).bytes
      = (FieldinFormatter.printLogLine rt f (bufferBytes entry) entry (resolvedKeys rt entry)
          (resolvedData entry) (FieldinFormatter.timestampFormat f)).1 ++ [10] := rfl
  rw [h, printLogLine_fst]

/-! ## Collision resolution -/

theorem prefixFieldClashes_eq (data : log.Fields) (reportCaller : Bool) :
    prefixFieldClashes data reportCaller
      = if reportCaller then
          copyKey log.FieldKeyFile (copyKey log.FieldKeyFunc
            (moveKey log.FieldKeyLogrusError (moveKey log.FieldKeyLevel
              (moveKey log.FieldKeyMsg (moveKey log.FieldKeyTime data)))))
        else
          moveKey log.FieldKeyLogrusError (moveKey log.FieldKeyLevel
            (moveKey log.FieldKeyMsg (moveKey log.FieldKeyTime data))) := by
  cases reportCaller <;> rfl

theorem fields_ne (r : GoString) : ascii "fields." ++ r ≠ r := by
  intro h
  have := congrArg List.length h
  simp [ascii] at this
  omega

theorem lookup_moveKey (r k : GoString) (d : log.Fields) :
    (moveKey r d).lookup k
      = if k = r then none
        else if k = ascii "fields." ++ r then
          (match d.lookup r with
            | some t => some t
            | none => d.lookup k)
        else d.lookup k := by
  unfold moveKey
  rcases h : d.lookup r with _ | t
  · by_cases h1 : k = r
    · rw [if_pos h1, h1, h]
    · rw [if_neg h1]
      by_cases h2 : k = ascii "fields." ++ r
      · rw [if_pos h2]
      · rw [if_neg h2]
  · by_cases h1 : k = r
    · rw [if_pos h1, h1]
      exact AList.lookup_erase _ _
    · rw [if_neg h1]
      by_cases h2 : k = ascii "fields." ++ r
      · rw [if_pos h2, h2]
        have h3 : ascii "fields." ++ r ≠ r := fields_ne r
        show AList.lookup _ (AList.erase r (AList.insert _ t d)) = some t
        rw [AList.lookup_erase_ne h3, AList.lookup_insert]
      · rw [if_neg h2]
        show AList.lookup k (AList.erase r (AList.insert _ t d)) = _
        rw [AList.lookup_erase_ne h1, AList.lookup_insert_ne h2]

theorem lookup_copyKey (r k : GoString) (d : log.Fields) :
    (copyKey r d).lookup k
      = if k = ascii "fields." ++ r then
          (match d.lookup r with
            | some t => some t
            | none => d.lookup k)
        else d.lookup k := by
  unfold copyKey
  rcases h : d.lookup r with _ | t
  · by_cases h2 : k = ascii "fields." ++ r
    · rw [if_pos h2]
    · rw [if_neg h2]
  · by_cases h2 : k = ascii "fields." ++ r
    · rw [if_pos h2, h2]
      exact AList.lookup_insert _
    · rw [if_neg h2]
      exact AList.lookup_insert_ne h2

theorem key_time : log.FieldKeyTime = [116, 105, 109, 101] := rfl

theorem key_msg : log.FieldKeyMsg = [109, 115, 103] := rfl

theorem key_level : log.FieldKeyLevel = [108, 101, 118, 101, 108] := rfl

theorem key_logrus_error :
    log.FieldKeyLogrusError = [108, 111, 103, 114, 117, 115, 95, 101, 114, 114, 111, 114] := rfl

theorem key_func : log.FieldKeyFunc = [102, 117, 110, 99] := rfl

theorem key_file : log.FieldKeyFile = [102, 105, 108, 101] := rfl

theorem ascii_fields : ascii "fields." = [102, 105, 101, 108, 100, 115, 46] := rfl

/-- The four names `prefixFieldClashes` deletes are not keys afterwards. -/
theorem lookup_resolved_moved (d : log.Fields) (rc : Bool) (k : GoString)
    (hk : k ∈ reservedNames false) : (prefixFieldClashes d rc).lookup k = none := by
  rw [prefixFieldClashes_eq]
  simp only [reservedNames, key_time, key_msg, key_level, key_logrus_error, Bool.false_eq_true,
    if_false, List.append_nil, List.mem_cons, List.mem_singleton, List.not_mem_nil, or_false] at hk
  cases rc <;> simp only [if_false, if_true, Bool.false_eq_true, lookup_moveKey, lookup_copyKey] <;>
    rcases hk with rfl | rfl | rfl | rfl <;>
    simp [key_time, key_msg, key_level, key_logrus_error, key_func, key_file, ascii_fields]

/-- A reserved name that is a key has its value under `"fields." + name` afterwards; when
it is not a key, what `"fields." + name` held stays. -/
theorem lookup_resolved_renamed (d : log.Fields) (rc : Bool) (r : GoString)
    (hr : r ∈ reservedNames rc) :
    (prefixFieldClashes d rc).lookup (ascii "fields." ++ r)
      = (match d.lookup r with
          | some t => some t
          | none => d.lookup (ascii "fields." ++ r)) := by
  rw [prefixFieldClashes_eq]
  cases rc <;>
    simp only [reservedNames, key_time, key_msg, key_level, key_logrus_error, key_func, key_file,
      Bool.false_eq_true, if_false, if_true, List.append_nil, List.mem_cons, List.mem_singleton,
      List.not_mem_nil, or_false, List.cons_append, List.nil_append] at hr <;>
    simp only [if_false, if_true, Bool.false_eq_true, lookup_moveKey, lookup_copyKey]
  · rcases hr with rfl | rfl | rfl | rfl <;>
      simp [key_time, key_msg, key_level, key_logrus_error, key_func, key_file, ascii_fields]
  · rcases hr with rfl | rfl | rfl | rfl | rfl | rfl <;>
      simp [key_time, key_msg, key_level, key_logrus_error, key_func, key_file, ascii_fields]

/-- Every other key keeps what it held. -/
theorem lookup_resolved_other (d : log.Fields) (rc : Bool) (k : GoString)
    (h1 : k ∉ reservedNames false) (h2 : ∀ r ∈ reservedNames rc, k ≠ ascii "fields." ++ r) :
    (prefixFieldClashes d rc).lookup k = d.lookup k := by
  rw [prefixFieldClashes_eq]
  simp only [reservedNames, key_time, key_msg, key_level, key_logrus_error, Bool.false_eq_true,
    if_false, List.append_nil, List.mem_cons, List.mem_singleton, List.not_mem_nil, or_false,
    not_or] at h1
  obtain ⟨h11, h12, h13, h14⟩ := h1
  cases rc <;>
    simp only [reservedNames, key_time, key_msg, key_level, key_logrus_error, key_func, key_file,
      Bool.false_eq_true, if_false, if_true, List.append_nil, List.mem_cons, List.mem_singleton,
      List.not_mem_nil, or_false, List.cons_append, List.nil_append, forall_eq_or_imp, forall_eq,
      ascii_fields] at h2 <;>
    simp only [if_false, if_true, Bool.false_eq_true, lookup_moveKey, lookup_copyKey]
  · obtain ⟨h21, h22, h23, h24⟩ := h2
    simp [key_time, key_msg, key_level, key_logrus_error, key_func, key_file, ascii_fields,
      h11, h12, h13, h14, h21, h22, h23, h24]
  · obtain ⟨h21, h22, h23, h24, h25, h26⟩ := h2
    simp [key_time, key_msg, key_level, key_logrus_error, key_func, key_file, ascii_fields,
      h11, h12, h13, h14, h21, h22, h23, h24, h25, h26]

/-! ## The copy of the field bag -/

theorem lookup_foldl_insert (l : List (Sigma fun _ : GoString => Value)) (hl : l.NodupKeys)
    (acc : log.Fields) (k : GoString) :
    (l.foldl (fun (data : log.Fields) kv => data.insert kv.1 kv.2) acc).lookup k
      = (match l.dlookup k with
          | some v => some v
          | none => acc.lookup k) := by
  induction l generalizing acc with
  | nil => rfl
  | cons kv t ih =>
    obtain ⟨a, b⟩ := kv
    have hnd := List.nodupKeys_cons.mp hl
    rw [List.foldl_cons, ih hnd.2]
    by_cases hka : k = a
    · subst hka
      have hnone : List.dlookup k t = none := List.dlookup_eq_none.mpr hnd.1
      simp [hnone, AList.lookup_insert]
    · have hne : a ≠ k := fun h => hka h.symm
      rw [List.dlookup_cons_ne _ _ hka, AList.lookup_insert_ne hka]

/-- The copy holds exactly what the entry's field bag holds. -/
theorem lookup_copyFields (src : log.Fields) (k : GoString) :
    (FieldinFormatter.copyFields src).lookup k = src.lookup k := by
  unfold FieldinFormatter.copyFields
  rw [lookup_foldl_insert _ src.nodupKeys]
  show (match src.lookup k with | some v => some v | none => (∅ : log.Fields).lookup k) = _
  cases src.lookup k <;> simp

theorem copyFields_empty : FieldinFormatter.copyFields ∅ = ∅ := rfl

/-! ## Decoding and quoting -/

theorem first_cases (b : Nat) :
    utf8.first b = 240 ∧ b < 128 ∨ utf8.first b = 241 ∧ 128 ≤ b
      ∨ utf8.first b = 2 ∧ 194 ≤ b ∧ b < 224
      ∨ utf8.first b = 19 ∧ b = 224
      ∨ utf8.first b = 3 ∧ 225 ≤ b ∧ b < 240
      ∨ utf8.first b = 35 ∧ b = 237
      ∨ utf8.first b = 52 ∧ b = 240
      ∨ utf8.first b = 4 ∧ 241 ≤ b ∧ b < 244
      ∨ utf8.first b = 68 ∧ b = 244 := by
  by_cases h1 : b < 0x80
  · left; simp [utf8.first, h1]
  by_cases h2 : b < 0xC2
  · right; left; simp [utf8.first, h1, h2]; omega
  by_cases h3 : b < 0xE0
  · right; right; left; simp [utf8.first, h1, h2, h3]; omega
  by_cases h4 : b = 0xE0
  · right; right; right; left; simp [utf8.first, h4]
  by_cases h5 : b < 0xED
  · right; right; right; right; left; simp [utf8.first, h1, h2, h3, h4, h5]; omega
  by_cases h6 : b = 0xED
  · right; right; right; right; right; left; simp [utf8.first, h6]
  by_cases h7 : b < 0xF0
  · right; right; right; right; left; simp [utf8.first, h1, h2, h3, h4, h5, h6, h7]; omega
  by_cases h8 : b = 0xF0
  · right; right; right; right; right; right; left; simp [utf8.first, h8]
  by_cases h9 : b < 0xF4
  · right; right; right; right; right; right; right; left
    simp [utf8.first, h1, h2, h3, h4, h5, h6, h7, h8, h9]; omega
  by_cases h10 : b = 0xF4
  · right; right; right; right; right; right; right; right; simp [utf8.first, h10]
  · right; left; simp [utf8.first, h1, h2, h3, h4, h5, h6, h7, h8, h9, h10]; omega

/-- Decoding is blind to what follows an ASCII byte. -/
theorem decode_append_ascii (s0 : Nat) (t : GoString) (c : Nat) (s2 : GoString) (hc : c < 0x80) :
    utf8.DecodeRuneInString (s0 :: (t ++ c :: s2)) = utf8.DecodeRuneInString (s0 :: t) := by
  rcases first_cases s0 with h | h | h | h | h | h | h | h | h <;>
  rcases t with _ | ⟨a, _ | ⟨b, _ | ⟨e, t⟩⟩⟩ <;>
  simp [utf8.DecodeRuneInString, h.1, utf8.acceptRanges] <;>
  (try split_ifs) <;> (try omega) <;> (try simp_all)

/-- A rune never spans more bytes than there are. -/
theorem decode_width_le (s0 : Nat) (t : GoString) :
    (utf8.DecodeRuneInString (s0 :: t)).2 - 1 ≤ t.length := by
  rcases first_cases s0 with h | h | h | h | h | h | h | h | h <;>
  rcases t with _ | ⟨a, _ | ⟨b, _ | ⟨e, t⟩⟩⟩ <;>
  simp [utf8.DecodeRuneInString, h.1, utf8.acceptRanges] <;>
  (try split_ifs) <;> (try simp)

/-- A rune decoded at a byte that is not ASCII is not ASCII. -/
theorem decode_rune_ge (s0 : Nat) (t : GoString) (h0 : 0x80 ≤ s0) :
    0x80 ≤ (utf8.DecodeRuneInString (s0 :: t)).1 := by
  rcases first_cases s0 with h | h | h | h | h | h | h | h | h <;>
  simp [utf8.DecodeRuneInString, h.1, utf8.acceptRanges, utf8.RuneError] <;>
  (try split_ifs) <;> (try simp) <;> (try omega)

theorem quoteBody_zero_cons (rt : GoRuntime) (q s0 : Nat) (rest : GoString) :
    strconv.quoteBody rt q 0 (s0 :: rest)
      = if (if s0 ≥ utf8.RuneSelf then utf8.DecodeRuneInString (s0 :: rest) else (s0, 1)).2 = 1
            ∧ (if s0 ≥ utf8.RuneSelf then utf8.DecodeRuneInString (s0 :: rest) else (s0, 1)).1
              = utf8.RuneError then
          [92, 120, strconv.lowerhex (s0 / 16), strconv.lowerhex (s0 % 16)]
            ++ strconv.quoteBody rt q 0 rest
        else
          strconv.appendEscapedRune rt
              (if s0 ≥ utf8.RuneSelf then utf8.DecodeRuneInString (s0 :: rest) else (s0, 1)).1 q
            ++ strconv.quoteBody rt q
              ((if s0 ≥ utf8.RuneSelf then utf8.DecodeRuneInString (s0 :: rest) else (s0, 1)).2 - 1)
              rest := rfl

theorem quoteBody_succ_cons (rt : GoRuntime) (q k s0 : Nat) (rest : GoString) :
    strconv.quoteBody rt q (k + 1) (s0 :: rest) = strconv.quoteBody rt q k rest := rfl

theorem quoteBody_nil (rt : GoRuntime) (q k : Nat) : strconv.quoteBody rt q k [] = [] := by
  cases k <;> rfl

/-- Quoting splits at an ASCII byte: the byte is escaped on its own, between the
renderings of what precedes and what follows it. -/
theorem quoteBody_append_ascii (rt : GoRuntime) (q c : Nat) (hc : c < 0x80) (s2 : GoString) :
    ∀ (s1 : GoString) (k : Nat), k ≤ s1.length →
      strconv.quoteBody rt q k (s1 ++ c :: s2)
        = strconv.quoteBody rt q k s1 ++ strconv.appendEscapedRune rt c q
          ++ strconv.quoteBody rt q 0 s2 := by
  intro s1
  induction s1 with
  | nil =>
    intro k hk
    have hk0 : k = 0 := by simpa using hk
    subst hk0
    have h1 : ¬ (c ≥ utf8.RuneSelf) := by simp [utf8.RuneSelf]; omega
    have h2 : ¬ (c = utf8.RuneError) := by simp [utf8.RuneError]; omega
    rw [List.nil_append, quoteBody_zero_cons, quoteBody_nil]
    simp [h1, h2]
  | cons a t ih =>
    intro k hk
    have e : a :: t ++ c :: s2 = a :: (t ++ c :: s2) := rfl
    cases k with
    | succ k =>
      have hk2 : k ≤ t.length := by simpa using hk
      rw [e, quoteBody_succ_cons, quoteBody_succ_cons]
      exact ih k hk2
    | zero =>
      rw [e, quoteBody_zero_cons, quoteBody_zero_cons, decode_append_ascii a t c s2 hc]
      by_cases ha : a ≥ utf8.RuneSelf
      · simp only [ha, if_true]
        split_ifs with h1
        · rw [ih 0 (Nat.zero_le _)]; simp
        · rw [ih _ (decode_width_le a t)]; simp
      · simp only [ha, if_false]
        split_ifs with h1
        · rw [ih 0 (Nat.zero_le _)]; simp
        · rw [ih 0 (Nat.zero_le _)]; simp

theorem lowerhex_range (x : Nat) :
    (48 ≤ strconv.lowerhex x ∧ strconv.lowerhex x ≤ 57)
      ∨ (97 ≤ strconv.lowerhex x ∧ strconv.lowerhex x ≤ 102) := by
  unfold strconv.lowerhex
  split_ifs <;> omega

theorem escapeByte_lowerhex (x : Nat) : escapeByte (strconv.lowerhex x) := by
  have := lowerhex_range x
  unfold escapeByte
  omega

/-- The bytes an escaped rune is written with: the rune itself when it is printable
ASCII, bytes of a multi-byte encoding, or the characters of an escape sequence. -/
theorem mem_appendEscapedRune (rt : GoRuntime) (r c : Nat)
    (h : c ∈ strconv.appendEscapedRune rt r 34) :
    (c = r ∧ 32 ≤ r ∧ r ≤ 126) ∨ 128 ≤ c ∨ escapeByte c := by
  have e92 : escapeByte 92 := by unfold escapeByte; omega
  have e34 : escapeByte 34 := by unfold escapeByte; omega
  have e85 : escapeByte 85 := by unfold escapeByte; omega
  have elet : ∀ x, 97 ≤ x → x ≤ 120 → escapeByte x := by
    intro x h1 h2; unfold escapeByte; omega
  have ehex := escapeByte_lowerhex
  unfold strconv.appendEscapedRune at h
  by_cases h1 : r = 34 ∨ r = 92
  · rw [if_pos h1] at h
    simp only [List.mem_cons, List.mem_singleton, List.not_mem_nil, or_false] at h
    rcases h with rfl | rfl
    · exact Or.inr (Or.inr e92)
    · rcases h1 with rfl | rfl
      · exact Or.inr (Or.inr e34)
      · exact Or.inr (Or.inr e92)
  rw [if_neg h1] at h
  by_cases h2 : strconv.IsPrint rt r = true
  · rw [if_pos h2] at h
    unfold utf8.AppendRune at h
    unfold strconv.IsPrint at h2
    split_ifs at h h2 <;>
      simp only [List.mem_cons, List.mem_singleton, List.not_mem_nil, or_false] at h <;>
      omega
  rw [if_neg h2] at h
  by_cases h3 : r = 7
  · rw [if_pos h3] at h
    simp only [List.mem_cons, List.mem_singleton, List.not_mem_nil, or_false] at h
    rcases h with rfl | rfl
    · exact Or.inr (Or.inr e92)
    · exact Or.inr (Or.inr (elet _ (by omega) (by omega)))
  rw [if_neg h3] at h
  by_cases h4 : r = 8
  · rw [if_pos h4] at h
    simp only [List.mem_cons, List.mem_singleton, List.not_mem_nil, or_false] at h
    rcases h with rfl | rfl
    · exact Or.inr (Or.inr e92)
    · exact Or.inr (Or.inr (elet _ (by omega) (by omega)))
  rw [if_neg h4] at h
  by_cases h5 : r = 12
  · rw [if_pos h5] at h
    simp only [List.mem_cons, List.mem_singleton, List.not_mem_nil, or_false] at h
    rcases h with rfl | rfl
    · exact Or.inr (Or.inr e92)
    · exact Or.inr (Or.inr (elet _ (by omega) (by omega)))
  rw [if_neg h5] at h
  by_cases h6 : r = 10
  · rw [if_pos h6] at h
    simp only [List.mem_cons, List.mem_singleton, List.not_mem_nil, or_false] at h
    rcases h with rfl | rfl
    · exact Or.inr (Or.inr e92)
    · exact Or.inr (Or.inr (elet _ (by omega) (by omega)))
  rw [if_neg h6] at h
  by_cases h7 : r = 13
  · rw [if_pos h7] at h
    simp only [List.mem_cons, List.mem_singleton, List.not_mem_nil, or_false] at h
    rcases h with rfl | rfl
    · exact Or.inr (Or.inr e92)
    · exact Or.inr (Or.inr (elet _ (by omega) (by omega)))
  rw [if_neg h7] at h
  by_cases h8 : r = 9
  · rw [if_pos h8] at h
    simp only [List.mem_cons, List.mem_singleton, List.not_mem_nil, or_false] at h
    rcases h with rfl | rfl
    · exact Or.inr (Or.inr e92)
    · exact Or.inr (Or.inr (elet _ (by omega) (by omega)))
  rw [if_neg h8] at h
  by_cases h9 : r = 11
  · rw [if_pos h9] at h
    simp only [List.mem_cons, List.mem_singleton, List.not_mem_nil, or_false] at h
    rcases h with rfl | rfl
    · exact Or.inr (Or.inr e92)
    · exact Or.inr (Or.inr (elet _ (by omega) (by omega)))
  rw [if_neg h9] at h
  by_cases h10 : r < 32 ∨ r = 0x7F
  · rw [if_pos h10] at h
    simp only [List.mem_cons, List.mem_singleton, List.not_mem_nil, or_false] at h
    rcases h with rfl | rfl | rfl | rfl
    · exact Or.inr (Or.inr e92)
    · exact Or.inr (Or.inr (elet _ (by omega) (by omega)))
    · exact Or.inr (Or.inr (ehex _))
    · exact Or.inr (Or.inr (ehex _))
  rw [if_neg h10] at h
  dsimp only at h
  split_ifs at h <;>
    simp only [List.mem_cons, List.mem_singleton, List.not_mem_nil, or_false] at h
  all_goals
    rcases h with rfl | rfl | h
    · exact Or.inr (Or.inr e92)
    · first
      | exact Or.inr (Or.inr e85)
      | exact Or.inr (Or.inr (elet _ (by omega) (by omega)))
    · right; right
      repeat (rcases h with rfl | h; exact ehex _)

/-- The bytes between the quotes: printable ASCII bytes of the string itself, bytes of
multi-byte encodings, and the characters of escape sequences. -/
theorem mem_quoteBody (rt : GoRuntime) (c : Nat) :
    ∀ (s : GoString) (k : Nat), c ∈ strconv.quoteBody rt 34 k s →
      (c ∈ s ∧ 32 ≤ c ∧ c ≤ 126) ∨ 128 ≤ c ∨ escapeByte c := by
  intro s
  induction s with
  | nil =>
    intro k h
    rw [quoteBody_nil] at h
    exact absurd h (List.not_mem_nil c)
  | cons a t ih =>
    intro k h
    have lift : ((c ∈ t ∧ 32 ≤ c ∧ c ≤ 126) ∨ 128 ≤ c ∨ escapeByte c) →
        ((c ∈ a :: t ∧ 32 ≤ c ∧ c ≤ 126) ∨ 128 ≤ c ∨ escapeByte c) := by
      rintro (⟨h1, h2⟩ | h1)
      · exact Or.inl ⟨List.mem_cons_of_mem a h1, h2⟩
      · exact Or.inr h1
    cases k with
    | succ k =>
      rw [quoteBody_succ_cons] at h
      exact lift (ih k h)
    | zero =>
      rw [quoteBody_zero_cons] at h
      split_ifs at h with h1 h2 h3
      all_goals rcases List.mem_append.mp h with h | h
      any_goals exact lift (ih _ h)
      · simp only [List.mem_cons, List.mem_singleton, List.not_mem_nil, or_false] at h
        right; right
        rcases h with rfl | rfl | rfl | rfl
        · unfold escapeByte; omega
        · unfold escapeByte; omega
        · exact escapeByte_lowerhex _
        · exact escapeByte_lowerhex _
      · rcases mem_appendEscapedRune rt _ c h with ⟨h5, h6⟩ | h5
        · have := decode_rune_ge a t h1
          omega
        · exact Or.inr h5
      · simp only [List.mem_cons, List.mem_singleton, List.not_mem_nil, or_false] at h
        right; right
        rcases h with rfl | rfl | rfl | rfl
        · unfold escapeByte; omega
        · unfold escapeByte; omega
        · exact escapeByte_lowerhex _
        · exact escapeByte_lowerhex _
      · rcases mem_appendEscapedRune rt _ c h with ⟨h5, h6⟩ | h5
        · exact Or.inl ⟨by rw [h5]; exact List.mem_cons_self _ _, by omega⟩
        · exact Or.inr h5

/-! ## Keys of the resolved bag -/

theorem mem_resolvedKeys (rt : GoRuntime) (entry : log.Entry) (k : GoString) :
    k ∈ resolvedKeys rt entry ↔ ((resolvedData entry).lookup k).isSome = true := by
  unfold resolvedKeys
  rw [(rt.mapRange_perm _).mem_iff, ← AList.mem_keys, AList.lookup_isSome]

theorem lookup_resolvedData (entry : log.Entry) (k : GoString) :
    (resolvedData entry).lookup k
      = (prefixFieldClashes entry.Data entry.HasCaller).lookup k := by
  unfold resolvedData
  by_cases h1 : k ∈ reservedNames false
  · rw [lookup_resolved_moved _ _ _ h1, lookup_resolved_moved _ _ _ h1]
  · by_cases h2 : ∃ r ∈ reservedNames entry.HasCaller, k = ascii "fields." ++ r
    · obtain ⟨r, hr, rfl⟩ := h2
      rw [lookup_resolved_renamed _ _ _ hr, lookup_resolved_renamed _ _ _ hr,
        lookup_copyFields, lookup_copyFields]
    · have h3 : ∀ r ∈ reservedNames entry.HasCaller, k ≠ ascii "fields." ++ r :=
        fun r hr he => h2 ⟨r, hr, he⟩
      rw [lookup_resolved_other _ _ _ h1 h3, lookup_resolved_other _ _ _ h1 h3,
        lookup_copyFields]

theorem fieldText_infix (rt : GoRuntime) (data : log.Fields) (keys : List GoString)
    (k : GoString) (hk : k ∈ keys) :
    fieldText rt data k <:+: (keys.map (fieldText rt data)).flatten := by
  obtain ⟨l1, l2, rfl⟩ := List.append_of_mem hk
  refine ⟨(l1.map (fieldText rt data)).flatten, (l2.map (fieldText rt data)).flatten, ?_⟩
  simp

/-! ## C1: the line of an entry without call-site info -/

theorem callerSegment_of_not_hasCaller (entry : log.Entry) (h : entry.HasCaller = false) :
    callerSegment entry = [] := by
  unfold callerSegment
  rw [h]

theorem resolvedKeys_WithField (rt : GoRuntime) (entry : log.Entry) (k : GoString) (v : Value)
    (hd : resolvedData entry = (∅ : log.Fields).insert k v) :
    resolvedKeys rt entry = [k] := by
  unfold resolvedKeys
  rw [hd]
  exact List.perm_singleton.mp (rt.mapRange_perm _)

/-- C1, as stated, fails for an entry that brings a buffer with bytes in it: the
returned bytes start with those bytes, not with the timestamp. -/
theorem C1_counterexample :
    testFormatter.DisableTimestamp = false
      ∧ log.Entry.HasCaller
          { log.WithField (ascii "test") (.str (ascii "foo")) with Buffer := some (ascii "x") }
        = false
      ∧ (FieldinFormatter.Format GoRuntime.plain testFormatter
          { log.WithField (ascii "test") (.str (ascii "foo")) with
            Buffer := some (ascii "x") }).bytes
        = ascii "x0001-01-01T00:00:00.000 PANIC test=\"foo\" ;\n"
      ∧ (FieldinFormatter.Format GoRuntime.plain testFormatter
          { log.WithField (ascii "test") (.str (ascii "foo")) with
            Buffer := some (ascii "x") }).bytes
        ≠ specLine GoRuntime.plain testFormatter
          { log.WithField (ascii "test") (.str (ascii "foo")) with Buffer := some (ascii "x") } := by
  decide

/-- C1 (amended): for every formatter with DisableTimestamp false and every entry
without call-site info, the bytes Format returns are the bytes a supplied buffer
already held (none without a buffer) followed by exactly: the time formatted
with the configured pattern, a space, the level in capitals, for each key of
the resolved field bag in enumeration order a space, the key, `=` and the
quoted value, then ` ;` if there is a field, then a space and the message
without one trailing newline if that text is not empty, then a newline. With
level panic, the one field test = "foo", no message and no buffer the line is
the timestamp followed by ` PANIC test="foo" ;` and a newline. -/
theorem C1_format_line (rt : GoRuntime) (f : FieldinFormatter) (entry : log.Entry)
    (hts : f.DisableTimestamp = false) (hc : entry.HasCaller = false) :
    (FieldinFormatter.Format rt f entry).bytes = bufferBytes entry ++ specLine rt f entry
      ∧ (entry.Data = (∅ : log.Fields).insert (ascii "test") (.str (ascii "foo")) →
          entry.Level = 0 → entry.Message = [] → entry.Buffer = none →
          (FieldinFormatter.Format rt f entry).bytes
            = entry.Time.Format (FieldinFormatter.timestampFormat f)
              ++ ascii " PANIC test=\"foo\" ;\n") := by
  have _ := hts
  have hline : (FieldinFormatter.Format rt f entry).bytes
      = bufferBytes entry ++ specLine rt f entry := by
    rw [Format_bytes, callerSegment_of_not_hasCaller entry hc]
    unfold specLine
    simp
  refine ⟨hline, ?_⟩
  intro hd hl hm hb
  have hdata : resolvedData entry
      = (∅ : log.Fields).insert (ascii "test") (.str (ascii "foo")) := by
    unfold resolvedData
    rw [hd, hc]
    rfl
  have hkeys := resolvedKeys_WithField rt entry _ _ hdata
  rw [hline]
  unfold specLine bufferBytes
  rw [hkeys, hdata, hl, hm, hb]
  have hrest : [32] ++ strings.ToUpper (log.Level.String 0)
      ++ (List.map (fieldText rt ((∅ : log.Fields).insert (ascii "test") (.str (ascii "foo"))))
          [ascii "test"]).flatten
      ++ (if [ascii "test"] = [] then [] else ascii " ;")
      ++ (if strings.TrimSuffix [] (ascii "\n") = [] then []
          else [32] ++ strings.TrimSuffix [] (ascii "\n"))
      ++ [10] = ascii " PANIC test=\"foo\" ;\n" := rfl
  have key : ∀ (X A B C D : GoString),
      ([] : GoString) ++ (X ++ [32] ++ A ++ B ++ C ++ D ++ [10])
        = X ++ ([32] ++ A ++ B ++ C ++ D ++ [10]) := by
    intros; simp
  exact (key _ _ _ _ _).trans (congrArg _ hrest)

/-- C1 (amended), at the entry of `TestFormatting`. -/
theorem C1_format_line_witness :
    testFormatter.DisableTimestamp = false
      ∧ (log.WithField (ascii "test") (.str (ascii "foo"))).HasCaller = false
      ∧ (FieldinFormatter.Format GoRuntime.plain testFormatter
          (log.WithField (ascii "test") (.str (ascii "foo")))).bytes
        = ascii "0001-01-01T00:00:00.000 PANIC test=\"foo\" ;\n" :=
  ⟨rfl, rfl,
    (C1_format_line GoRuntime.plain testFormatter
      (log.WithField (ascii "test") (.str (ascii "foo"))) rfl rfl).2 rfl rfl rfl rfl⟩

/-! ## C2: a value under a reserved name is written under the renamed key -/

theorem infix_of_fieldText (rt : GoRuntime) (f : FieldinFormatter) (entry : log.Entry)
    (k : GoString) (hk : k ∈ resolvedKeys rt entry) :
    fieldText rt (resolvedData entry) k <:+: (FieldinFormatter.Format rt f entry).bytes := by
  rw [Format_bytes]
  obtain ⟨l1, l2, h⟩ := fieldText_infix rt (resolvedData entry) _ k hk
  rw [← h]
  refine ⟨bufferBytes entry ++ entry.Time.Format (FieldinFormatter.timestampFormat f) ++ [32]
      ++ strings.ToUpper (log.Level.String entry.Level) ++ callerSegment entry ++ l1,
    l2 ++ (if resolvedKeys rt entry = [] then [] else ascii " ;")
      ++ (if strings.TrimSuffix entry.Message (ascii "\n") = [] then []
          else [32] ++ strings.TrimSuffix entry.Message (ascii "\n")) ++ [10], ?_⟩
  simp only [List.append_assoc]

/-- C2: when the fields of an entry hold a reserved name (time, msg, level,
logrus_error, and func or file when the entry has call-site info) with value
v, the bytes Format returns contain `fields.<name>=` followed by the quoted
rendering of v. -/
theorem C2_reserved_value_renamed (rt : GoRuntime) (f : FieldinFormatter) (entry : log.Entry)
    (name : GoString) (v : Value) (hname : name ∈ reservedNames entry.HasCaller)
    (hv : entry.Data.lookup name = some v) :
    (ascii "fields." ++ name ++ ascii "=" ++ quoted rt v)
      <:+: (FieldinFormatter.Format rt f entry).bytes := by
  have hlook : (resolvedData entry).lookup (ascii "fields." ++ name) = some v := by
    rw [lookup_resolvedData, lookup_resolved_renamed _ _ _ hname, hv]
  have hk : ascii "fields." ++ name ∈ resolvedKeys rt entry := by
    rw [mem_resolvedKeys, hlook]; rfl
  have hidx : (resolvedData entry).index (ascii "fields." ++ name) = v := by
    unfold log.Fields.index
    rw [hlook]; rfl
  refine List.IsInfix.trans ?_ (infix_of_fieldText rt f entry _ hk)
  unfold fieldText
  rw [hidx]
  exact ⟨[32], [], by simp [ascii]⟩

/-- C2, at an entry whose fields hold `time`. -/
theorem C2_reserved_value_renamed_witness :
    ascii "time" ∈ reservedNames (log.WithField (ascii "time") (.str (ascii "noon"))).HasCaller
      ∧ (log.WithField (ascii "time") (.str (ascii "noon"))).Data.lookup (ascii "time")
          = some (.str (ascii "noon"))
      ∧ (ascii "fields.time=\"noon\"")
          <:+: (FieldinFormatter.Format GoRuntime.plain testFormatter
            (log.WithField (ascii "time") (.str (ascii "noon")))).bytes :=
  ⟨by decide, by decide,
    C2_reserved_value_renamed GoRuntime.plain testFormatter
      (log.WithField (ascii "time") (.str (ascii "noon"))) (ascii "time") (.str (ascii "noon"))
      (by decide) (by decide)⟩

/-! ## C3: which reserved keys are gone after `prefixFieldClashes` -/

/-- C3: after `prefixFieldClashes` no key is `time`, `msg`, `level` or `logrus_error`,
whatever the flag; but with `reportCaller` true the bag `{func: "main.run"}` still holds
`func` afterwards (next to `fields.func`), and `{file: "a.go"}` still holds `file`: these
two branches store the renamed key and do not delete the original. -/
theorem C3_func_and_file_stay :
    (∀ (data : log.Fields) (reportCaller : Bool) (k : GoString),
        k ∈ [log.FieldKeyTime, log.FieldKeyMsg, log.FieldKeyLevel, log.FieldKeyLogrusError] →
        k ∉ (prefixFieldClashes data reportCaller).keys)
      ∧ (prefixFieldClashes
            ((∅ : log.Fields).insert log.FieldKeyFunc (.str (ascii "main.run"))) true).keys
          = [ascii "fields.func", ascii "func"]
      ∧ (prefixFieldClashes
            ((∅ : log.Fields).insert log.FieldKeyFile (.str (ascii "a.go"))) true).keys
          = [ascii "fields.file", ascii "file"] := by
  refine ⟨?_, by decide, by decide⟩
  intro data rc k hk
  rw [← AList.mem_keys, ← AList.lookup_eq_none]
  exact lookup_resolved_moved data rc k (by simpa [reservedNames] using hk)

/-! ## C4: what `prefixFieldClashes` keeps -/

/-- C4, as stated, fails for a bag that holds `fields.time` next to `time`: the value
of `fields.time` is overwritten by the value of `time` and is found under no key
afterwards. -/
theorem C4_counterexample :
    (((∅ : log.Fields).insert (ascii "fields.time") (.str (ascii "b"))).insert
        (ascii "time") (.str (ascii "a"))).lookup (ascii "fields.time")
      = some (.str (ascii "b"))
    ∧ (prefixFieldClashes
        (((∅ : log.Fields).insert (ascii "fields.time") (.str (ascii "b"))).insert
          (ascii "time") (.str (ascii "a"))) false).lookup (ascii "fields.time")
      = some (.str (ascii "a"))
    ∧ (prefixFieldClashes
        (((∅ : log.Fields).insert (ascii "fields.time") (.str (ascii "b"))).insert
          (ascii "time") (.str (ascii "a"))) false).lookup (ascii "fields." ++ ascii "fields.time")
      = none
    ∧ (prefixFieldClashes
        (((∅ : log.Fields).insert (ascii "fields.time") (.str (ascii "b"))).insert
          (ascii "time") (.str (ascii "a"))) false).entries
      = [⟨ascii "fields.time", .str (ascii "a")⟩] := by
  decide

/-- C4 (amended): for every field bag and flag, an entry (key, value) of the bag
before `prefixFieldClashes` is found afterwards under its own key or under
`"fields." + key` with the same value, unless its key is `"fields." + name` for
a reserved name (func and file only with the flag set) that is itself a key of
the bag with a different value: such an entry is overwritten. -/
theorem C4_entries_kept (data : log.Fields) (reportCaller : Bool) (k : GoString) (v : Value)
    (hv : data.lookup k = some v)
    (hfree : ∀ r ∈ reservedNames reportCaller, k = ascii "fields." ++ r →
      ∀ w, data.lookup r = some w → w = v) :
    (prefixFieldClashes data reportCaller).lookup k = some v
      ∨ (prefixFieldClashes data reportCaller).lookup (ascii "fields." ++ k) = some v := by
  by_cases h1 : k ∈ reservedNames false
  · right
    have h1' : k ∈ reservedNames reportCaller := by
      unfold reservedNames at h1 ⊢
      simp only [Bool.false_eq_true, if_false, List.append_nil] at h1
      exact List.mem_append_left _ h1
    rw [lookup_resolved_renamed _ _ _ h1', hv]
  · left
    by_cases h2 : ∃ r ∈ reservedNames reportCaller, k = ascii "fields." ++ r
    · obtain ⟨r, hr, hk⟩ := h2
      have hfr := hfree r hr hk
      subst hk
      rw [lookup_resolved_renamed _ _ _ hr]
      rcases hw : data.lookup r with _ | w
      · exact hv
      · rw [hfr w hw]
    · have h3 : ∀ r ∈ reservedNames reportCaller, k ≠ ascii "fields." ++ r :=
        fun r hr he => h2 ⟨r, hr, he⟩
      rw [lookup_resolved_other _ _ _ h1 h3, hv]

/-- C4 (amended), at a bag that holds `time` and `fields.level`. -/
theorem C4_entries_kept_witness :
    (((∅ : log.Fields).insert (ascii "fields.level") (.str (ascii "b"))).insert
        (ascii "time") (.str (ascii "a"))).lookup (ascii "time") = some (.str (ascii "a"))
    ∧ ((prefixFieldClashes
          (((∅ : log.Fields).insert (ascii "fields.level") (.str (ascii "b"))).insert
            (ascii "time") (.str (ascii "a"))) true).lookup (ascii "time")
        = some (.str (ascii "a"))
      ∨ (prefixFieldClashes
          (((∅ : log.Fields).insert (ascii "fields.level") (.str (ascii "b"))).insert
            (ascii "time") (.str (ascii "a"))) true).lookup (ascii "fields." ++ ascii "time")
        = some (.str (ascii "a"))) :=
  ⟨by decide,
    C4_entries_kept _ true (ascii "time") (.str (ascii "a")) (by decide) (by
      intro r hr hk
      exact absurd (congrArg List.length hk) (by simp [ascii]))⟩

/-! ## C5: `DisableTimestamp` -/

/-- C5: with `DisableTimestamp` set, `Format` still returns
`0001-01-01T00:00:00.000 PANIC test="foo" ;` for the entry of the tests: the line begins
with the timestamp, not with the level. For every formatter and entry the
bytes are the same with the flag set as with the flag clear: the flag only
decides what goes into `fixedKeys`, which is not read. -/
theorem C5_timestamp_written_when_disabled :
    (FieldinFormatter.Format GoRuntime.plain
        { DisableTimestamp := true, FullTimestamp := false, TimestampFormat := [] }
        (log.WithField (ascii "test") (.str (ascii "foo")))).bytes
      = ascii "0001-01-01T00:00:00.000 PANIC test=\"foo\" ;\n"
    ∧ ∀ (rt : GoRuntime) (f : FieldinFormatter) (entry : log.Entry),
        (FieldinFormatter.Format rt { f with DisableTimestamp := true } entry).bytes
          = (FieldinFormatter.Format rt { f with DisableTimestamp := false } entry).bytes := by
  refine ⟨by decide, ?_⟩
  intro rt f entry
  rw [Format_bytes, Format_bytes]
  rfl

/-! ## C6, C7, C8: the quoted value -/

theorem appendValue_str (rt : GoRuntime) (f : FieldinFormatter) (b s : GoString) :
    FieldinFormatter.appendValue rt f b (.str s)
      = b ++ [34] ++ strconv.quoteBody rt 34 0 s ++ [34] := by
  simp [FieldinFormatter.appendValue, strconv.Quote]

theorem appendValue_split (rt : GoRuntime) (f : FieldinFormatter) (b s1 s2 : GoString) (c : Nat)
    (hc : c < 0x80) :
    FieldinFormatter.appendValue rt f b (.str (s1 ++ [c] ++ s2))
      = b ++ [34] ++ strconv.quoteBody rt 34 0 s1 ++ strconv.appendEscapedRune rt c 34
        ++ strconv.quoteBody rt 34 0 s2 ++ [34] := by
  rw [appendValue_str]
  have e : s1 ++ [c] ++ s2 = s1 ++ c :: s2 := by simp
  rw [e, quoteBody_append_ascii rt 34 c hc s2 s1 0 (Nat.zero_le _)]
  simp

/-- C6: for every string value, `appendValue` writes a quote, the body, a quote; a
double quote inside the value is written as backslash and double quote, and a
single quote as itself, each between the bodies of what stands before and
after it. So `ba"r` gets the body `ba\"r` and `ba'r` the body `ba'r`. -/
theorem C6_quotes_escaped (rt : GoRuntime) (f : FieldinFormatter) (b s1 s2 : GoString) :
    FieldinFormatter.appendValue rt f b (.str s1)
        = b ++ [34] ++ strconv.quoteBody rt 34 0 s1 ++ [34]
      ∧ FieldinFormatter.appendValue rt f b (.str (s1 ++ [34] ++ s2))
        = b ++ [34] ++ strconv.quoteBody rt 34 0 s1 ++ [92, 34]
          ++ strconv.quoteBody rt 34 0 s2 ++ [34]
      ∧ FieldinFormatter.appendValue rt f b (.str (s1 ++ [39] ++ s2))
        = b ++ [34] ++ strconv.quoteBody rt 34 0 s1 ++ [39]
          ++ strconv.quoteBody rt 34 0 s2 ++ [34]
      ∧ FieldinFormatter.appendValue rt f b (.str (ascii "ba\"r")) = b ++ ascii "\"ba\\\"r\""
      ∧ FieldinFormatter.appendValue rt f b (.str (ascii "ba'r")) = b ++ ascii "\"ba'r\"" := by
  refine ⟨appendValue_str rt f b s1, ?_, ?_, ?_, ?_⟩
  · rw [appendValue_split rt f b s1 s2 34 (by omega)]
    rfl
  · rw [appendValue_split rt f b s1 s2 39 (by omega)]
    rfl
  · rw [appendValue_eq]
    rfl
  · rw [appendValue_eq]
    rfl

theorem quoted_ge (rt : GoRuntime) (v : Value) (c : Nat) (hc : c ∈ quoted rt v) : 32 ≤ c := by
  unfold quoted strconv.Quote at hc
  simp only [List.mem_append, List.mem_singleton] at hc
  rcases hc with (hc | hc) | hc
  · omega
  · rcases mem_quoteBody rt c _ _ hc with h | h | h
    · omega
    · omega
    · unfold escapeByte at h; omega
  · omega

/-- C7, as stated, fails for the value of `TestQuoting`: the newline and the carriage
return of `foo\n\rbar` are written as backslash `n` and backslash `r`, and
neither raw byte is in what `appendValue` writes. -/
theorem C7_counterexample :
    FieldinFormatter.appendValue GoRuntime.plain testFormatter [] (.str (ascii "foo\n\rbar"))
        = ascii "\"foo\\n\\rbar\""
      ∧ 10 ∉ FieldinFormatter.appendValue GoRuntime.plain testFormatter []
          (.str (ascii "foo\n\rbar"))
      ∧ 13 ∉ FieldinFormatter.appendValue GoRuntime.plain testFormatter []
          (.str (ascii "foo\n\rbar")) := by
  decide

/-- C7 (amended): for every string value, `appendValue` writes a newline of the value
as backslash and `n` and a carriage return as backslash and `r`, each between
the bodies of what stands before and after it; and whatever the value, no
byte below 0x20 (so no raw newline or carriage return) is in what it writes. -/
theorem C7_control_characters_escaped (rt : GoRuntime) (f : FieldinFormatter)
    (b s1 s2 : GoString) :
    FieldinFormatter.appendValue rt f b (.str (s1 ++ [10] ++ s2))
        = b ++ [34] ++ strconv.quoteBody rt 34 0 s1 ++ [92, 110]
          ++ strconv.quoteBody rt 34 0 s2 ++ [34]
      ∧ FieldinFormatter.appendValue rt f b (.str (s1 ++ [13] ++ s2))
        = b ++ [34] ++ strconv.quoteBody rt 34 0 s1 ++ [92, 114]
          ++ strconv.quoteBody rt 34 0 s2 ++ [34]
      ∧ ∀ (v : Value) (c : Nat), c ∈ FieldinFormatter.appendValue rt f [] v → 32 ≤ c := by
  refine ⟨?_, ?_, ?_⟩
  · rw [appendValue_split rt f b s1 s2 10 (by omega)]
    rfl
  · rw [appendValue_split rt f b s1 s2 13 (by omega)]
    rfl
  · intro v c hc
    rw [appendValue_eq, List.nil_append] at hc
    exact quoted_ge rt v c hc

/-- C8: for every field value, what `appendValue` writes begins with a double quote,
ends with a double quote and is at least two bytes long. -/
theorem C8_value_in_quotes (rt : GoRuntime) (f : FieldinFormatter) (b : GoString) (v : Value) :
    ∃ w : GoString, FieldinFormatter.appendValue rt f b v = b ++ w
      ∧ w.head? = some 34 ∧ w.getLast? = some 34 ∧ 2 ≤ w.length := by
  refine ⟨quoted rt v, appendValue_eq rt f b v, ?_, ?_, ?_⟩
  · simp [quoted, strconv.Quote]
  · have e : quoted rt v = ([34] ++ strconv.quoteBody rt 34 0 (fmt.Sprint v)) ++ [34] := rfl
    rw [e, List.getLast?_append]
    rfl
  · simp [quoted, strconv.Quote]

/-! ## Bytes of the other segments -/

/-- The level text is never empty and is made of capital letters. -/
theorem levelText_bytes (level : Nat) :
    strings.ToUpper (log.Level.String level) ≠ []
      ∧ ∀ c ∈ strings.ToUpper (log.Level.String level), 65 ≤ c ∧ c ≤ 90 := by
  rcases level with _ | _ | _ | _ | _ | _ | _ | n
  · exact ⟨by decide, by decide⟩
  · exact ⟨by decide, by decide⟩
  · exact ⟨by decide, by decide⟩
  · exact ⟨by decide, by decide⟩
  · exact ⟨by decide, by decide⟩
  · exact ⟨by decide, by decide⟩
  · exact ⟨by decide, by decide⟩
  · have e : log.Level.String (n + 1 + 1 + 1 + 1 + 1 + 1 + 1) = ascii "unknown" := rfl
    rw [e]
    exact ⟨by decide, by decide⟩

theorem digits_bytes (fuel : Nat) :
    ∀ (n : Nat) (acc : GoString), (∀ c ∈ acc, 48 ≤ c ∧ c ≤ 57) →
      ∀ c ∈ fmt.digits fuel n acc, 48 ≤ c ∧ c ≤ 57 := by
  induction fuel with
  | zero => intro n acc h c hc; exact h c hc
  | succ fuel ih =>
    intro n acc h c hc
    unfold fmt.digits at hc
    split_ifs at hc with h1
    · rcases List.mem_cons.mp hc with rfl | hc
      · omega
      · exact h c hc
    · refine ih _ _ ?_ c hc
      intro d hd
      rcases List.mem_cons.mp hd with rfl | hd
      · omega
      · exact h d hd

/-- The text of `%d` is made of digits and the minus sign. -/
theorem formatInt_bytes (i : Int) : ∀ c ∈ fmt.formatInt i, c = 45 ∨ (48 ≤ c ∧ c ≤ 57) := by
  intro c hc
  unfold fmt.formatInt at hc
  split_ifs at hc
  · rcases List.mem_cons.mp hc with rfl | hc
    · exact Or.inl rfl
    · exact Or.inr (digits_bytes _ _ [] (fun _ h => absurd h (List.not_mem_nil _)) c hc)
  · exact Or.inr (digits_bytes _ _ [] (fun _ h => absurd h (List.not_mem_nil _)) c hc)

theorem mem_TrimSuffix (s suffix : GoString) (c : Nat) (hc : c ∈ strings.TrimSuffix s suffix) :
    c ∈ s := by
  unfold strings.TrimSuffix at hc
  split_ifs at hc
  · exact List.mem_of_mem_take hc
  · exact hc

/-- Where an entry of the resolved bag comes from: the same key of the entry's fields,
or a reserved name whose value was moved. -/
theorem resolved_lookup_source (entry : log.Entry) (k : GoString) (v : Value)
    (h : (resolvedData entry).lookup k = some v) :
    entry.Data.lookup k = some v
      ∨ ∃ r ∈ reservedNames entry.HasCaller, k = ascii "fields." ++ r
          ∧ entry.Data.lookup r = some v := by
  rw [lookup_resolvedData] at h
  by_cases h1 : k ∈ reservedNames false
  · rw [lookup_resolved_moved _ _ _ h1] at h
    exact absurd h (by simp)
  · by_cases h2 : ∃ r ∈ reservedNames entry.HasCaller, k = ascii "fields." ++ r
    · obtain ⟨r, hr, hk⟩ := h2
      subst hk
      rw [lookup_resolved_renamed _ _ _ hr] at h
      rcases hw : entry.Data.lookup r with _ | w
      · rw [hw] at h
        exact Or.inl h
      · rw [hw] at h
        exact Or.inr ⟨r, hr, rfl, hw.trans h⟩
    · have h3 : ∀ r ∈ reservedNames entry.HasCaller, k ≠ ascii "fields." ++ r :=
        fun r hr he => h2 ⟨r, hr, he⟩
      rw [lookup_resolved_other _ _ _ h1 h3] at h
      exact Or.inl h

/-- A key of the entry's fields leaves a key in the resolved bag. -/
theorem resolved_lookup_target (entry : log.Entry) (k : GoString) (v : Value)
    (h : entry.Data.lookup k = some v) :
    ((resolvedData entry).lookup k).isSome = true
      ∨ ((resolvedData entry).lookup (ascii "fields." ++ k)).isSome = true := by
  rw [lookup_resolvedData, lookup_resolvedData]
  by_cases h1 : k ∈ reservedNames false
  · right
    have h1' : k ∈ reservedNames entry.HasCaller := by
      unfold reservedNames at h1 ⊢
      simp only [Bool.false_eq_true, if_false, List.append_nil] at h1
      exact List.mem_append_left _ h1
    rw [lookup_resolved_renamed _ _ _ h1', h]
    rfl
  · left
    by_cases h2 : ∃ r ∈ reservedNames entry.HasCaller, k = ascii "fields." ++ r
    · obtain ⟨r, hr, hk⟩ := h2
      subst hk
      rw [lookup_resolved_renamed _ _ _ hr]
      rcases hw : entry.Data.lookup r with _ | w
      · rw [h]; rfl
      · rfl
    · have h3 : ∀ r ∈ reservedNames entry.HasCaller, k ≠ ascii "fields." ++ r :=
        fun r hr he => h2 ⟨r, hr, he⟩
      rw [lookup_resolved_other _ _ _ h1 h3, h]
      rfl

/-- The resolved bag has no key exactly when the entry has no field. -/
theorem resolvedKeys_eq_nil (rt : GoRuntime) (entry : log.Entry) :
    resolvedKeys rt entry = [] ↔ entry.Data.keys = [] := by
  constructor
  · intro h
    by_contra hne
    obtain ⟨k, hk⟩ := List.exists_mem_of_ne_nil _ hne
    have hk' : k ∈ entry.Data := AList.mem_keys.mpr hk
    rw [← AList.lookup_isSome] at hk'
    obtain ⟨v, hv⟩ := Option.isSome_iff_exists.mp hk'
    rcases resolved_lookup_target entry k v hv with h1 | h1
    · have := (mem_resolvedKeys rt entry k).mpr h1
      rw [h] at this
      exact List.not_mem_nil _ this
    · have := (mem_resolvedKeys rt entry _).mpr h1
      rw [h] at this
      exact List.not_mem_nil _ this
  · intro h
    by_contra hne
    obtain ⟨k, hk⟩ := List.exists_mem_of_ne_nil _ hne
    rw [mem_resolvedKeys] at hk
    obtain ⟨v, hv⟩ := Option.isSome_iff_exists.mp hk
    have hmem : ∀ k' v', entry.Data.lookup k' = some v' → False := by
      intro k' v' hl
      have h1 : k' ∈ entry.Data := AList.lookup_isSome.mp (by rw [hl]; rfl)
      have h2 := AList.mem_keys.mp h1
      rw [h] at h2
      exact List.not_mem_nil _ h2
    rcases resolved_lookup_source entry k v hv with h1 | ⟨r, _, _, h1⟩
    · exact hmem _ _ h1
    · exact hmem _ _ h1

/-! ## C9: the separator -/

theorem isPrefixOf_semi (x : Nat) (xs : GoString) :
    List.isPrefixOf [32, 59] (x :: xs) = true ↔ x = 32 ∧ xs.head? = some 59 := by
  rcases xs with _ | ⟨y, ys⟩
  · simp only [List.isPrefixOf_cons₂, List.isPrefixOf_cons_nil, Bool.and_false, List.head?_nil]
    constructor
    · intro h; exact absurd h (by decide)
    · rintro ⟨_, h⟩; exact absurd h (by simp)
  · simp only [List.isPrefixOf_cons₂, List.isPrefixOf_nil_left, Bool.and_true, Bool.and_eq_true,
      beq_iff_eq, List.head?_cons, Option.some.injEq]
    constructor
    · rintro ⟨h1, h2⟩; exact ⟨h1.symm, h2.symm⟩
    · rintro ⟨h1, h2⟩; exact ⟨h1.symm, h2.symm⟩

theorem countToken_semi_cons (x : Nat) (xs : GoString) :
    countToken [32, 59] (x :: xs)
      = (if x = 32 ∧ xs.head? = some 59 then 1 else 0) + countToken [32, 59] xs := by
  have e : countToken [32, 59] (x :: xs)
      = (if List.isPrefixOf [32, 59] (x :: xs) then 1 else 0) + countToken [32, 59] xs := rfl
  rw [e]
  congr 1
  by_cases h : x = 32 ∧ xs.head? = some 59
  · rw [if_pos h, if_pos ((isPrefixOf_semi x xs).mpr h)]
  · rw [if_neg h, if_neg (fun hp => h ((isPrefixOf_semi x xs).mp hp))]

theorem countToken_semi_zero (l : GoString) (h : 59 ∉ l) : countToken [32, 59] l = 0 := by
  induction l with
  | nil => rfl
  | cons x xs ih =>
    rw [countToken_semi_cons, ih (fun hm => h (List.mem_cons_of_mem _ hm))]
    have hx : ¬ (x = 32 ∧ xs.head? = some 59) := by
      rintro ⟨_, he⟩
      exact h (List.mem_cons_of_mem _ (List.mem_of_mem_head? he))
    rw [if_neg hx]

theorem countToken_semi_one (A B : GoString) (hA : 59 ∉ A) (hB : 59 ∉ B) :
    countToken [32, 59] (A ++ 32 :: 59 :: B) = 1 := by
  induction A with
  | nil =>
    rw [List.nil_append, countToken_semi_cons, countToken_semi_cons, countToken_semi_zero B hB]
    simp
  | cons a t ih =>
    rw [List.cons_append, countToken_semi_cons, ih (fun hm => hA (List.mem_cons_of_mem _ hm))]
    have hx : ¬ (a = 32 ∧ (t ++ 32 :: 59 :: B).head? = some 59) := by
      rintro ⟨_, he⟩
      rcases t with _ | ⟨y, ys⟩
      · simp at he
      · simp only [List.cons_append, List.head?_cons, Option.some.injEq] at he
        exact hA (by rw [he]; simp)
    rw [if_neg hx]

/-- A property of the bytes the call-site segment can hold, carried over from the file
and function names of the frame. -/
theorem callerSegment_all (entry : log.Entry) (P : Nat → Prop) (h32 : P 32) (h58 : P 58)
    (h40 : P 40) (h41 : P 41) (h45 : P 45) (hd : ∀ c, 48 ≤ c → c ≤ 57 → P c)
    (hfr : ∀ fr, entry.HasCaller = true → entry.Caller = some fr →
      (∀ c ∈ fr.File, P c) ∧ (∀ c ∈ fr.Function, P c)) :
    ∀ c ∈ callerSegment entry, P c := by
  intro c hc
  unfold callerSegment at hc
  rcases hh : entry.HasCaller with _ | _ <;> rcases hcl : entry.Caller with _ | fr <;>
    rw [hh, hcl] at hc
  · exact absurd hc (List.not_mem_nil _)
  · exact absurd hc (List.not_mem_nil _)
  · exact absurd hc (List.not_mem_nil _)
  · obtain ⟨hfile, hfun⟩ := hfr fr hh hcl
    have hc' : c ∈ [32] ++ (fr.File ++ [58] ++ fmt.formatInt fr.Line ++ [32] ++ fr.Function
        ++ [40, 41]) := hc
    rcases List.mem_append.mp hc' with h | h
    · rw [List.mem_singleton.mp h]; exact h32
    rcases List.mem_append.mp h with h | h
    rcases List.mem_append.mp h with h | h
    rcases List.mem_append.mp h with h | h
    rcases List.mem_append.mp h with h | h
    rcases List.mem_append.mp h with h | h
    · exact hfile c h
    · rw [List.mem_singleton.mp h]; exact h58
    · rcases formatInt_bytes _ c h with h | h
      · rw [h]; exact h45
      · exact hd c h.1 h.2
    · rw [List.mem_singleton.mp h]; exact h32
    · exact hfun c h
    · rcases List.mem_cons.mp h with h | h
      · rw [h]; exact h40
      · rw [List.mem_singleton.mp h]; exact h41

/-- A property of the bytes the fields segment can hold, carried over from the keys
and the quoted values of the entry's fields. -/
theorem fieldsSegment_all (rt : GoRuntime) (entry : log.Entry) (P : Nat → Prop) (h32 : P 32)
    (h61 : P 61) (hpre : ∀ c ∈ ascii "fields.", P c)
    (hk : ∀ k v, entry.Data.lookup k = some v → ∀ c ∈ k, P c)
    (hv : ∀ k v, entry.Data.lookup k = some v → ∀ c ∈ quoted rt v, P c) :
    ∀ c ∈ ((resolvedKeys rt entry).map (fieldText rt (resolvedData entry))).flatten, P c := by
  intro c hc
  obtain ⟨l, hl, hcl⟩ := List.mem_flatten.mp hc
  obtain ⟨k, hkm, rfl⟩ := List.mem_map.mp hl
  rw [mem_resolvedKeys] at hkm
  obtain ⟨v, hlook⟩ := Option.isSome_iff_exists.mp hkm
  have hidx : (resolvedData entry).index k = v := by
    unfold log.Fields.index
    rw [hlook]; rfl
  unfold fieldText at hcl
  rw [hidx] at hcl
  have hkey : ∀ c ∈ k, P c := by
    rcases resolved_lookup_source entry k v hlook with h | ⟨r, _, rfl, h⟩
    · exact hk k v h
    · intro d hd
      rcases List.mem_append.mp hd with hd | hd
      · exact hpre d hd
      · exact hk r v h d hd
  have hval : ∀ c ∈ quoted rt v, P c := by
    rcases resolved_lookup_source entry k v hlook with h | ⟨r, _, _, h⟩
    · exact hv k v h
    · exact hv r v h
  rcases List.mem_append.mp hcl with h | h
  rcases List.mem_append.mp h with h | h
  rcases List.mem_append.mp h with h | h
  · rw [List.mem_singleton.mp h]; exact h32
  · exact hkey c h
  · rw [List.mem_singleton.mp h]; exact h61
  · exact hval c h

/-- A semicolon in a quoted value comes from the value. -/
theorem semi_mem_quoted (rt : GoRuntime) (v : Value) (h : 59 ∈ quoted rt v) :
    59 ∈ fmt.Sprint v := by
  unfold quoted strconv.Quote at h
  simp only [List.mem_append, List.mem_singleton] at h
  rcases h with (h | h) | h
  · omega
  · rcases mem_quoteBody rt 59 _ _ h with h | h | h
    · exact h.1
    · omega
    · unfold escapeByte at h; omega
  · omega

/-- C9, as stated, fails when a value or the message holds the token itself: with the
field test = " ;" the line has two occurrences of ` ;`, and with no field and
the message "a ;" it has one. -/
theorem C9_counterexample :
    (log.WithField (ascii "test") (.str (ascii " ;"))).Data.keys ≠ []
      ∧ (FieldinFormatter.Format GoRuntime.plain testFormatter
          (log.WithField (ascii "test") (.str (ascii " ;")))).bytes
        = ascii "0001-01-01T00:00:00.000 PANIC test=\" ;\" ;\n"
      ∧ countToken (ascii " ;") (FieldinFormatter.Format GoRuntime.plain testFormatter
          (log.WithField (ascii "test") (.str (ascii " ;")))).bytes = 2
      ∧ log.NewEntry.Data.keys = []
      ∧ (FieldinFormatter.Format GoRuntime.plain testFormatter
          { log.NewEntry with Message := ascii "a ;" }).bytes
        = ascii "0001-01-01T00:00:00.000 PANIC a ;\n"
      ∧ countToken (ascii " ;") (FieldinFormatter.Format GoRuntime.plain testFormatter
          { log.NewEntry with Message := ascii "a ;" }).bytes = 1 := by
  decide

/-- C9 (amended): when no other part of the line holds a semicolon (the bytes of a
supplied buffer, the formatted time, the file and function names of the
call site when it is written, the keys and the default text of the values
of the fields, the message), the bytes Format returns contain exactly one
occurrence of the token ` ;` for an entry with a non-empty field set and none
for an entry with an empty field set. -/
theorem C9_separator_count (rt : GoRuntime) (f : FieldinFormatter) (entry : log.Entry)
    (hbuf : 59 ∉ bufferBytes entry)
    (hts : 59 ∉ entry.Time.Format (FieldinFormatter.timestampFormat f))
    (hcaller : ∀ fr, entry.HasCaller = true → entry.Caller = some fr →
      59 ∉ fr.File ∧ 59 ∉ fr.Function)
    (hfields : ∀ k v, entry.Data.lookup k = some v → 59 ∉ k ∧ 59 ∉ fmt.Sprint v)
    (hmsg : 59 ∉ entry.Message) :
    countToken (ascii " ;") (FieldinFormatter.Format rt f entry).bytes
      = if entry.Data.keys = [] then 0 else 1 := by
  have hlevel : 59 ∉ strings.ToUpper (log.Level.String entry.Level) := by
    intro h
    have := (levelText_bytes entry.Level).2 59 h
    omega
  have hcs : 59 ∉ callerSegment entry := by
    intro h
    refine callerSegment_all entry (fun c => c ≠ 59) (by omega) (by omega) (by omega) (by omega)
      (by omega) (fun c h1 h2 => by omega) ?_ 59 h rfl
    intro fr h1 h2
    obtain ⟨h3, h4⟩ := hcaller fr h1 h2
    exact ⟨fun c hc he => h3 (he ▸ hc), fun c hc he => h4 (he ▸ hc)⟩
  have hfs : 59 ∉ ((resolvedKeys rt entry).map (fieldText rt (resolvedData entry))).flatten := by
    intro h
    refine fieldsSegment_all rt entry (fun c => c ≠ 59) (by omega) (by omega) (by decide)
      ?_ ?_ 59 h rfl
    · intro k v hl c hc he
      exact (hfields k v hl).1 (he ▸ hc)
    · intro k v hl c hc he
      exact (hfields k v hl).2 (semi_mem_quoted rt v (he ▸ hc))
  have hm : 59 ∉ (if strings.TrimSuffix entry.Message (ascii "\n") = [] then []
      else [32] ++ strings.TrimSuffix entry.Message (ascii "\n")) ++ [10] := by
    intro h
    rcases List.mem_append.mp h with h | h
    · split_ifs at h
      · exact List.not_mem_nil _ h
      · rcases List.mem_append.mp h with h | h
        · simp at h
        · exact hmsg (mem_TrimSuffix _ _ _ h)
    · simp at h
  have hA : 59 ∉ bufferBytes entry
      ++ entry.Time.Format (FieldinFormatter.timestampFormat f) ++ [32]
      ++ strings.ToUpper (log.Level.String entry.Level) ++ callerSegment entry
      ++ ((resolvedKeys rt entry).map (fieldText rt (resolvedData entry))).flatten := by
    simp only [List.mem_append, List.mem_singleton, not_or]
    exact ⟨⟨⟨⟨⟨hbuf, hts⟩, by omega⟩, hlevel⟩, hcs⟩, hfs⟩
  rw [Format_bytes, ascii_semi]
  by_cases hk : resolvedKeys rt entry = []
  · have hd := (resolvedKeys_eq_nil rt entry).mp hk
    have key : ∀ (A M : GoString), A ++ [] ++ M ++ [10] = A ++ (M ++ [10]) := by
      intros; simp
    rw [if_pos hk, if_pos hd, key]
    exact countToken_semi_zero _ (by
      intro h
      rcases List.mem_append.mp h with h | h
      · exact hA h
      · exact hm h)
  · have hd : ¬ entry.Data.keys = [] := fun h => hk ((resolvedKeys_eq_nil rt entry).mpr h)
    have key : ∀ (A M : GoString), A ++ [32, 59] ++ M ++ [10] = A ++ 32 :: 59 :: (M ++ [10]) := by
      intros; simp
    rw [if_neg hk, if_neg hd, key]
    exact countToken_semi_one _ _ hA hm

/-- C9 (amended), at the entry of `TestFormatting`. -/
theorem C9_separator_count_witness :
    countToken (ascii " ;") (FieldinFormatter.Format GoRuntime.plain testFormatter
        (log.WithField (ascii "test") (.str (ascii "foo")))).bytes = 1 :=
  C9_separator_count GoRuntime.plain testFormatter
    (log.WithField (ascii "test") (.str (ascii "foo")))
    (by decide) (by decide) (fun _ h => absurd h (by decide)) (by
      intro k v h
      have hk : k = ascii "test" := by
        by_contra hne
        have : (log.WithField (ascii "test") (.str (ascii "foo"))).Data.lookup k = none :=
          (AList.lookup_insert_ne hne).trans (AList.lookup_empty k)
        rw [this] at h
        exact absurd h (by simp)
      subst hk
      have hv : v = .str (ascii "foo") := by
        have : (log.WithField (ascii "test") (.str (ascii "foo"))).Data.lookup (ascii "test")
            = some (.str (ascii "foo")) := AList.lookup_insert _
        rw [this] at h
        exact (Option.some.inj h).symm
      subst hv
      exact ⟨by decide, by decide⟩) (by decide)

/-! ## C10: the final newline -/

theorem exists_last_of_ne_nil (l : GoString) (h : l ≠ []) :
    ∃ init x, l = init ++ [x] ∧ l.getLast? = some x := by
  refine ⟨l.dropLast, l.getLast h, (List.dropLast_append_getLast h).symm, ?_⟩
  exact List.getLast?_eq_getLast l h

/-- C10, as stated, fails for a message that ends in two newlines: one is removed and
the other is written before the final newline. -/
theorem C10_counterexample :
    (FieldinFormatter.Format GoRuntime.plain testFormatter
        { log.WithField (ascii "test") (.str (ascii "foo")) with
          Message := ascii "done\n\n" }).bytes
      = ascii "0001-01-01T00:00:00.000 PANIC test=\"foo\" ; done\n\n"
    ∧ (FieldinFormatter.Format GoRuntime.plain testFormatter
        { log.WithField (ascii "test") (.str (ascii "foo")) with
          Message := ascii "done\n\n" }).bytes.dropLast.getLast? = some 10 := by
  decide

/-- C10 (amended): for every entry, the last byte Format returns is a newline, there
is a byte before it, and that byte is a newline exactly when the message,
after one trailing newline has been removed, still ends in a newline. -/
theorem C10_final_newline (rt : GoRuntime) (f : FieldinFormatter) (entry : log.Entry) :
    ∃ (pre : GoString) (x : Nat),
      (FieldinFormatter.Format rt f entry).bytes = pre ++ [x, 10]
        ∧ (x = 10 ↔ (strings.TrimSuffix entry.Message (ascii "\n")).getLast? = some 10) := by
  rw [Format_bytes]
  generalize bufferBytes entry ++ entry.Time.Format (FieldinFormatter.timestampFormat f)
    ++ [32] = P
  by_cases hm : strings.TrimSuffix entry.Message (ascii "\n") = []
  · rw [if_pos hm, hm]
    by_cases hk : resolvedKeys rt entry = []
    · rw [if_pos hk, hk]
      by_cases hc : callerSegment entry = []
      · rw [hc]
        obtain ⟨hne, hall⟩ := levelText_bytes entry.Level
        obtain ⟨init, x, hx, hlast⟩ := exists_last_of_ne_nil _ hne
        have hxm : x ∈ strings.ToUpper (log.Level.String entry.Level) := by
          rw [hx]; simp
        have := hall x hxm
        refine ⟨P ++ init, x, ?_, ?_⟩
        · rw [hx]; simp
        · constructor
          · intro h; omega
          · intro h; simp at h
      · have hcs : ∃ init, callerSegment entry = init ++ [41] := by
          unfold callerSegment at hc ⊢
          rcases hh : entry.HasCaller with _ | _ <;> rcases hcl : entry.Caller with _ | fr <;>
            rw [hh, hcl] at hc
          · exact absurd rfl hc
          · exact absurd rfl hc
          · exact absurd rfl hc
          · exact ⟨[32] ++ fr.File ++ ascii ":" ++ fmt.formatInt fr.Line ++ ascii " "
              ++ fr.Function ++ [40], by simp [callerText, ascii_parens]⟩
        obtain ⟨init, hinit⟩ := hcs
        refine ⟨P ++ strings.ToUpper (log.Level.String entry.Level) ++ init, 41, ?_, ?_⟩
        · rw [hinit]; simp
        · constructor
          · intro h; omega
          · intro h; simp at h
    · rw [if_neg hk, ascii_semi]
      refine ⟨P ++ strings.ToUpper (log.Level.String entry.Level) ++ callerSegment entry
        ++ ((resolvedKeys rt entry).map (fieldText rt (resolvedData entry))).flatten ++ [32],
        59, ?_, ?_⟩
      · simp
      · constructor
        · intro h; omega
        · intro h; simp at h
  · rw [if_neg hm]
    obtain ⟨init, x, hx, hlast⟩ := exists_last_of_ne_nil _ hm
    refine ⟨P ++ strings.ToUpper (log.Level.String entry.Level) ++ callerSegment entry
      ++ ((resolvedKeys rt entry).map (fieldText rt (resolvedData entry))).flatten
      ++ (if resolvedKeys rt entry = [] then [] else ascii " ;") ++ [32] ++ init, x, ?_, ?_⟩
    · rw [hx]; simp
    · rw [hlast]
      constructor
      · intro h; rw [h]
      · intro h; exact Option.some.inj h

/-! ## C11: the call-site segment -/

theorem callerSegment_of_hasCaller (entry : log.Entry) (fr : log.Frame)
    (h : entry.HasCaller = true) (hfr : entry.Caller = some fr) :
    callerSegment entry = [32] ++ callerText fr := by
  unfold callerSegment
  rw [h, hfr]

/-- C11: for an entry with call-site info the segment after the level is always a
space and `<file>:<line> <function>()`, both halves, whatever the names are.
With an empty function name the line of the call site `a.go:12` reads
`PANIC a.go:12 ()`: the `()` is written; with an empty file name and line 0 it
reads `PANIC :0 main.run()`. `printLogLine` tests `fileVal` and `funcVal` for
emptiness after `:<line>` and `()` have been added to them, so neither test
can succeed. -/
theorem C11_caller_halves_always_written :
    (FieldinFormatter.Format GoRuntime.plain testFormatter
        { log.NewEntry with
          Logger := some ⟨true⟩, Caller := some ⟨[], ascii "a.go", 12⟩ }).bytes
      = ascii "0001-01-01T00:00:00.000 PANIC a.go:12 ()\n"
    ∧ (FieldinFormatter.Format GoRuntime.plain testFormatter
        { log.NewEntry with
          Logger := some ⟨true⟩, Caller := some ⟨ascii "main.run", [], 0⟩ }).bytes
      = ascii "0001-01-01T00:00:00.000 PANIC :0 main.run()\n"
    ∧ (FieldinFormatter.Format GoRuntime.plain testFormatter
        { log.NewEntry with
          Logger := some ⟨true⟩, Caller := some ⟨ascii "main.run", ascii "a.go", 12⟩ }).bytes
      = ascii "0001-01-01T00:00:00.000 PANIC a.go:12 main.run()\n"
    ∧ ∀ (rt : GoRuntime) (f : FieldinFormatter) (entry : log.Entry) (fr : log.Frame),
        entry.HasCaller = true → entry.Caller = some fr →
        ∃ rest : GoString,
          (FieldinFormatter.Format rt f entry).bytes
            = bufferBytes entry ++ entry.Time.Format (FieldinFormatter.timestampFormat f)
              ++ [32] ++ strings.ToUpper (log.Level.String entry.Level)
              ++ [32] ++ fr.File ++ ascii ":" ++ fmt.formatInt fr.Line ++ ascii " "
              ++ fr.Function ++ ascii "()" ++ rest := by
  refine ⟨by decide, by decide, by decide, ?_⟩
  intro rt f entry fr h hfr
  refine ⟨((resolvedKeys rt entry).map (fieldText rt (resolvedData entry))).flatten
    ++ (if resolvedKeys rt entry = [] then [] else ascii " ;")
    ++ (if strings.TrimSuffix entry.Message (ascii "\n") = [] then []
        else [32] ++ strings.TrimSuffix entry.Message (ascii "\n"))
    ++ [10], ?_⟩
  rw [Format_bytes, callerSegment_of_hasCaller entry fr h hfr]
  unfold callerText
  simp only [List.append_assoc]

/-! ## Two calls of `Format` -/

theorem IsPrint_congr (rt1 rt2 : GoRuntime) (hprint : rt1.isPrintTable = rt2.isPrintTable)
    (r : Nat) : strconv.IsPrint rt1 r = strconv.IsPrint rt2 r := by
  unfold strconv.IsPrint
  rw [hprint]

theorem appendEscapedRune_congr (rt1 rt2 : GoRuntime)
    (hprint : rt1.isPrintTable = rt2.isPrintTable) (r q : Nat) :
    strconv.appendEscapedRune rt1 r q = strconv.appendEscapedRune rt2 r q := by
  unfold strconv.appendEscapedRune
  rw [IsPrint_congr rt1 rt2 hprint]

theorem quoteBody_congr (rt1 rt2 : GoRuntime) (hprint : rt1.isPrintTable = rt2.isPrintTable)
    (q : Nat) : ∀ (s : GoString) (k : Nat),
      strconv.quoteBody rt1 q k s = strconv.quoteBody rt2 q k s := by
  intro s
  induction s with
  | nil =>
    intro k
    rw [quoteBody_nil, quoteBody_nil]
  | cons a t ih =>
    intro k
    cases k with
    | succ k => rw [quoteBody_succ_cons, quoteBody_succ_cons, ih k]
    | zero =>
      rw [quoteBody_zero_cons, quoteBody_zero_cons, ih 0, ih _,
        appendEscapedRune_congr rt1 rt2 hprint]

/-- The quoted value depends on the runtime through its print tables only. -/
theorem quoted_congr (rt1 rt2 : GoRuntime) (hprint : rt1.isPrintTable = rt2.isPrintTable)
    (v : Value) : quoted rt1 v = quoted rt2 v := by
  unfold quoted strconv.Quote
  rw [quoteBody_congr rt1 rt2 hprint]

/-- Two runs with the same print tables that visit the keys of the entry in the same
order return the same bytes. -/
theorem Format_bytes_congr (rt1 rt2 : GoRuntime) (f : FieldinFormatter) (entry : log.Entry)
    (hprint : rt1.isPrintTable = rt2.isPrintTable)
    (horder : resolvedKeys rt1 entry = resolvedKeys rt2 entry) :
    (FieldinFormatter.Format rt1 f entry).bytes = (FieldinFormatter.Format rt2 f entry).bytes := by
  rw [Format_bytes, Format_bytes, horder]
  have hf : fieldText rt1 (resolvedData entry) = fieldText rt2 (resolvedData entry) := by
    funext k
    unfold fieldText
    rw [quoted_congr rt1 rt2 hprint]
  rw [hf]

/-! ## C12: the timestamp pattern -/

/-- C12, as stated, fails in three ways. Two calls may visit the keys in different
orders: for the fields a and b the empty pattern gives `b="2" a="1"` in one
run and the default pattern gives `a="1" b="2"` in another. An entry may bring
a buffer with bytes in it: what stands before the level name is then not the
formatted time alone. And what `time.Format` writes need not parse back: for a
time in the year 10000 the pattern `2006` gives `10000`, the line is
`10000 PANIC`, and `time.Parse` with that pattern does not accept `10000`. -/
theorem C12_counterexample :
    ((FieldinFormatter.Format GoRuntime.plain
          { testFormatter with TimestampFormat := [] } log.WithTwoFields).bytes
        = ascii "0001-01-01T00:00:00.000 PANIC b=\"2\" a=\"1\" ;\n"
      ∧ (FieldinFormatter.Format GoRuntime.reversed
          { testFormatter with TimestampFormat := ascii "2006-01-02T15:04:05.000" }
          log.WithTwoFields).bytes
        = ascii "0001-01-01T00:00:00.000 PANIC a=\"1\" b=\"2\" ;\n"
      ∧ (FieldinFormatter.Format GoRuntime.plain
          { testFormatter with TimestampFormat := [] } log.WithTwoFields).bytes
        ≠ (FieldinFormatter.Format GoRuntime.reversed
          { testFormatter with TimestampFormat := ascii "2006-01-02T15:04:05.000" }
          log.WithTwoFields).bytes)
    ∧ ((FieldinFormatter.Format GoRuntime.plain
          { testFormatter with TimestampFormat := ascii "2006-01-02T15:04:05.000" }
          { log.WithField (ascii "test") (.str (ascii "test")) with
            Buffer := some (ascii "x") }).bytes
        = ascii "x0001-01-01T00:00:00.000 PANIC test=\"test\" ;\n"
      ∧ (zeroTime.Format (ascii "2006-01-02T15:04:05.000") ++ ascii " PANIC").isPrefixOf
          (FieldinFormatter.Format GoRuntime.plain
            { testFormatter with TimestampFormat := ascii "2006-01-02T15:04:05.000" }
            { log.WithField (ascii "test") (.str (ascii "test")) with
              Buffer := some (ascii "x") }).bytes
        = false)
    ∧ ((FieldinFormatter.Format GoRuntime.plain
          { testFormatter with TimestampFormat := ascii "2006" }
          { log.NewEntry with Time := time.inYear 10000 }).bytes
        = ascii "10000 PANIC\n"
      ∧ (time.inYear 10000).Format (ascii "2006") = ascii "10000"
      ∧ time.parsesLongYear (ascii "10000") = false) := by
  decide

/-- C12 (amended): when two calls visit the keys of the entry in the same order, a
formatter with an empty TimestampFormat returns in one the same bytes as a
formatter whose TimestampFormat is the default `2006-01-02T15:04:05.000`
returns in the other; and for every formatter and entry, what Format returns
is the bytes a supplied buffer already held (none without a buffer), then
exactly the entry's time formatted with the configured pattern (the default
one when it is empty), a space, and the level name; so whatever holds of the
formatted time and the pattern, such as that it parses back, holds of that
part of the output. -/
theorem C12_timestamp_pattern (rt1 rt2 : GoRuntime) (f : FieldinFormatter) (entry : log.Entry)
    (hprint : rt1.isPrintTable = rt2.isPrintTable)
    (horder : resolvedKeys rt1 entry = resolvedKeys rt2 entry) :
    (FieldinFormatter.Format rt1 { f with TimestampFormat := [] } entry).bytes
        = (FieldinFormatter.Format rt2
            { f with TimestampFormat := ascii "2006-01-02T15:04:05.000" } entry).bytes
      ∧ (∃ rest : GoString,
          (FieldinFormatter.Format rt1 f entry).bytes
            = bufferBytes entry
              ++ entry.Time.Format
                (if f.TimestampFormat = [] then ascii "2006-01-02T15:04:05.000"
                  else f.TimestampFormat)
              ++ [32] ++ strings.ToUpper (log.Level.String entry.Level) ++ rest)
      ∧ (∀ parses : GoString → GoString → Prop,
          parses
              (if f.TimestampFormat = [] then ascii "2006-01-02T15:04:05.000"
                else f.TimestampFormat)
              (entry.Time.Format
                (if f.TimestampFormat = [] then ascii "2006-01-02T15:04:05.000"
                  else f.TimestampFormat)) →
          parses
              (if f.TimestampFormat = [] then ascii "2006-01-02T15:04:05.000"
                else f.TimestampFormat)
              (((FieldinFormatter.Format rt1 f entry).bytes.drop (bufferBytes entry).length).take
                (entry.Time.Format
                  (if f.TimestampFormat = [] then ascii "2006-01-02T15:04:05.000"
                    else f.TimestampFormat)).length)) := by
  have e : FieldinFormatter.timestampFormat f
      = (if f.TimestampFormat = [] then ascii "2006-01-02T15:04:05.000"
          else f.TimestampFormat) := rfl
  refine ⟨?_, ?_, ?_⟩
  · rw [Format_bytes_congr rt1 rt2 _ entry hprint horder, Format_bytes, Format_bytes]
    rfl
  · refine ⟨callerSegment entry
      ++ ((resolvedKeys rt1 entry).map (fieldText rt1 (resolvedData entry))).flatten
      ++ (if resolvedKeys rt1 entry = [] then [] else ascii " ;")
      ++ (if strings.TrimSuffix entry.Message (ascii "\n") = [] then []
          else [32] ++ strings.TrimSuffix entry.Message (ascii "\n"))
      ++ [10], ?_⟩
    rw [Format_bytes, e]
    simp only [List.append_assoc]
  · intro parses h
    rw [Format_bytes, e]
    simp only [List.append_assoc, List.drop_left, List.take_left]
    exact h

/-- C12 (amended), at the entry of `TestTimestampFormat`, formatted in two runs that
visit keys in opposite orders (it has one field). -/
theorem C12_timestamp_pattern_witness :
    GoRuntime.plain.isPrintTable = GoRuntime.reversed.isPrintTable
      ∧ resolvedKeys GoRuntime.plain (log.WithField (ascii "test") (.str (ascii "test")))
          = resolvedKeys GoRuntime.reversed (log.WithField (ascii "test") (.str (ascii "test")))
      ∧ (FieldinFormatter.Format GoRuntime.plain { testFormatter with TimestampFormat := [] }
          (log.WithField (ascii "test") (.str (ascii "test")))).bytes
        = (FieldinFormatter.Format GoRuntime.reversed
          { testFormatter with TimestampFormat := ascii "2006-01-02T15:04:05.000" }
          (log.WithField (ascii "test") (.str (ascii "test")))).bytes :=
  ⟨rfl, by decide,
    (C12_timestamp_pattern GoRuntime.plain GoRuntime.reversed testFormatter
      (log.WithField (ascii "test") (.str (ascii "test"))) rfl (by decide)).1⟩

/-! ## C13: values that are not strings -/

/-- A string of printable ASCII bytes other than the quote and the backslash is its
own body between the quotes. -/
theorem quoteBody_plain (rt : GoRuntime) (s : GoString)
    (h : ∀ c ∈ s, 32 ≤ c ∧ c ≤ 126 ∧ c ≠ 34 ∧ c ≠ 92) :
    strconv.quoteBody rt 34 0 s = s := by
  induction s with
  | nil => rfl
  | cons a t ih =>
    obtain ⟨h1, h2, h3, h4⟩ := h a (List.mem_cons_self _ _)
    rw [quoteBody_zero_cons]
    have ha : ¬ (a ≥ utf8.RuneSelf) := by simp [utf8.RuneSelf]; omega
    have hr : ¬ (a = utf8.RuneError) := by simp [utf8.RuneError]; omega
    simp only [ha, if_false]
    rw [if_neg (fun hh => hr hh.2), ih (fun c hc => h c (List.mem_cons_of_mem _ hc))]
    have hesc : strconv.appendEscapedRune rt a 34 = [a] := by
      unfold strconv.appendEscapedRune
      rw [if_neg (by omega)]
      have hp : strconv.IsPrint rt a = true := by
        unfold strconv.IsPrint
        rw [if_pos (by omega), if_pos ⟨h1, h2⟩]
      rw [if_pos hp]
      unfold utf8.AppendRune
      rw [if_pos (by omega)]
    rw [hesc]
    rfl

/-- C13: for every value, `appendValue` writes what it writes for the string that
`fmt.Sprint` gives for the value; an error with message m is written as the
string m is, and as m between double quotes when m is made of printable ASCII
bytes other than the quote and the backslash. So the error of the tests is
written `"error: something went wrong"`. -/
theorem C13_non_string_values (rt : GoRuntime) (f : FieldinFormatter) (b : GoString) :
    (∀ v : Value, FieldinFormatter.appendValue rt f b v
        = FieldinFormatter.appendValue rt f b (.str (fmt.Sprint v)))
      ∧ (∀ m : GoString, FieldinFormatter.appendValue rt f b (.err m)
          = FieldinFormatter.appendValue rt f b (.str m))
      ∧ (∀ m : GoString, (∀ c ∈ m, 32 ≤ c ∧ c ≤ 126 ∧ c ≠ 34 ∧ c ≠ 92) →
          FieldinFormatter.appendValue rt f b (.err m) = b ++ [34] ++ m ++ [34])
      ∧ FieldinFormatter.appendValue rt f b (.err (ascii "error: something went wrong"))
          = b ++ ascii "\"error: something went wrong\"" := by
  refine ⟨fun v => by cases v <;> rfl, fun m => rfl, ?_, ?_⟩
  · intro m hm
    have e : FieldinFormatter.appendValue rt f b (.err m)
        = b ++ [34] ++ strconv.quoteBody rt 34 0 m ++ [34] := appendValue_str rt f b m
    rw [e, quoteBody_plain rt m hm]
  · rw [appendValue_eq]
    rfl

/-! ## C14: `Format` returns no error -/

/-- C14: for every formatter and every entry (any fields, any message, with or
without call-site info, with or without a buffer) `Format` returns its bytes
together with a nil error. -/
theorem C14_format_never_fails (rt : GoRuntime) (f : FieldinFormatter) (entry : log.Entry) :
    (FieldinFormatter.Format rt f entry).err = none := rfl

/-! ## C15, C16: the entry after `Format` -/

theorem isSuffixOf_newline (s : GoString) :
    List.isSuffixOf (ascii "\n") s = true ↔ s.getLast? = some 10 := by
  rw [List.isSuffixOf_iff_suffix, ascii_newline]
  constructor
  · rintro ⟨t, rfl⟩
    simp
  · intro h
    have hne : s ≠ [] := by
      intro he
      rw [he] at h
      simp at h
    obtain ⟨init, x, hx, hlast⟩ := exists_last_of_ne_nil s hne
    rw [hlast] at h
    have hx10 : x = 10 := Option.some.inj h
    exact ⟨init, by rw [hx, hx10]⟩

/-- What `strings.TrimSuffix` does with a newline: it takes one off the end, if there
is one. -/
theorem TrimSuffix_newline (s : GoString) :
    (s.getLast? = some 10 ∧ s = strings.TrimSuffix s (ascii "\n") ++ [10])
      ∨ (s.getLast? ≠ some 10 ∧ strings.TrimSuffix s (ascii "\n") = s) := by
  unfold strings.TrimSuffix
  by_cases h : List.isSuffixOf (ascii "\n") s = true
  · left
    rw [if_pos h]
    refine ⟨(isSuffixOf_newline s).mp h, ?_⟩
    obtain ⟨t, ht⟩ := List.isSuffixOf_iff_suffix.mp h
    rw [← ht, ascii_newline]
    simp
  · right
    rw [if_neg h]
    exact ⟨fun hl => h ((isSuffixOf_newline s).mpr hl), rfl⟩

theorem TrimSuffix_eq_self_iff (s : GoString) :
    strings.TrimSuffix s (ascii "\n") = s ↔ s.getLast? ≠ some 10 := by
  rcases TrimSuffix_newline s with ⟨h1, h2⟩ | ⟨h1, h2⟩
  · constructor
    · intro he
      rw [he] at h2
      have := congrArg List.length h2
      simp at this
    · intro hne
      exact absurd h1 hne
  · exact ⟨fun _ => h1, fun _ => h2⟩

/-- The entry `Format` leaves behind. -/
theorem Format_entry (rt : GoRuntime) (f : FieldinFormatter) (entry : log.Entry) :
    (FieldinFormatter.Format rt f entry).entry
      = { entry with
          Message := strings.TrimSuffix entry.Message (ascii "\n")
          Buffer := entry.Buffer.map fun _ => (FieldinFormatter.Format rt f entry).bytes } :=
  rfl

/-- C15: after `Format` the entry's Data holds the same keys and values as before
(the renaming is done on a copy that starts with the same content), logger,
time, level and call site are the same, Message is the old message without
one trailing newline if it had one, and a supplied buffer holds the returned
bytes; without a buffer there is still none. So an entry with the field time
still has it under `time` afterwards. -/
theorem C15_entry_after_format (rt : GoRuntime) (f : FieldinFormatter) (entry : log.Entry) :
    (FieldinFormatter.Format rt f entry).entry.Data = entry.Data
      ∧ (∀ k, (FieldinFormatter.copyFields entry.Data).lookup k = entry.Data.lookup k)
      ∧ (FieldinFormatter.Format rt f entry).entry.Logger = entry.Logger
      ∧ (FieldinFormatter.Format rt f entry).entry.Time = entry.Time
      ∧ (FieldinFormatter.Format rt f entry).entry.Level = entry.Level
      ∧ (FieldinFormatter.Format rt f entry).entry.Caller = entry.Caller
      ∧ ((FieldinFormatter.Format rt f entry).entry.Message = entry.Message
          ∨ entry.Message = (FieldinFormatter.Format rt f entry).entry.Message ++ [10])
      ∧ (FieldinFormatter.Format rt f entry).entry.Buffer
          = entry.Buffer.map (fun _ => (FieldinFormatter.Format rt f entry).bytes)
      ∧ ((FieldinFormatter.Format rt f
            (log.WithField (ascii "time") (.str (ascii "noon")))).entry.Data.entries
          = [⟨ascii "time", .str (ascii "noon")⟩]) := by
  refine ⟨rfl, lookup_copyFields entry.Data, rfl, rfl, rfl, rfl, ?_, rfl, rfl⟩
  have e : (FieldinFormatter.Format rt f entry).entry.Message
      = strings.TrimSuffix entry.Message (ascii "\n") := rfl
  rw [e]
  rcases TrimSuffix_newline entry.Message with ⟨_, h2⟩ | ⟨_, h2⟩
  · exact Or.inr h2
  · exact Or.inl h2

/-- C16, as stated, fails for a message that ends in two newlines: the first call
leaves the message with one newline fewer, and the second call, on the entry
as the first left it, writes a different line. -/
theorem C16_counterexample :
    log.Entry.Buffer { log.NewEntry with Message := ascii "done\n\n" } = none
      ∧ (FieldinFormatter.Format GoRuntime.plain testFormatter
          { log.NewEntry with Message := ascii "done\n\n" }).bytes
        = ascii "0001-01-01T00:00:00.000 PANIC done\n\n"
      ∧ (FieldinFormatter.Format GoRuntime.plain testFormatter
          (FieldinFormatter.Format GoRuntime.plain testFormatter
            { log.NewEntry with Message := ascii "done\n\n" }).entry).bytes
        = ascii "0001-01-01T00:00:00.000 PANIC done\n" := by
  decide

/-- C16 (amended): for every entry without a supplied buffer and two formatters
with equal configuration, with the same enumeration order, formatting the
entry with the first and then the entry as that call left it with the second
gives the same bytes exactly when the message, after one trailing newline has
been removed, does not end in a newline (so for every message that does not
end in two newlines). -/
theorem C16_format_twice (rt : GoRuntime) (f1 f2 : FieldinFormatter) (entry : log.Entry)
    (hcfg : f1 = f2) (hbuf : entry.Buffer = none) :
    (FieldinFormatter.Format rt f2 (FieldinFormatter.Format rt f1 entry).entry).bytes
        = (FieldinFormatter.Format rt f1 entry).bytes
      ↔ (strings.TrimSuffix entry.Message (ascii "\n")).getLast? ≠ some 10 := by
  subst hcfg
  obtain ⟨lg, d, t, lv, c, m, bf⟩ := entry
  simp only at hbuf
  subst hbuf
  have e : (FieldinFormatter.Format rt f1 ⟨lg, d, t, lv, c, m, none⟩).entry
      = ⟨lg, d, t, lv, c, strings.TrimSuffix m (ascii "\n"), none⟩ := rfl
  rw [e, Format_bytes, Format_bytes]
  have h1 : bufferBytes ⟨lg, d, t, lv, c, strings.TrimSuffix m (ascii "\n"), none⟩
      = bufferBytes ⟨lg, d, t, lv, c, m, none⟩ := rfl
  have h2 : callerSegment ⟨lg, d, t, lv, c, strings.TrimSuffix m (ascii "\n"), none⟩
      = callerSegment ⟨lg, d, t, lv, c, m, none⟩ := rfl
  have h3 : resolvedKeys rt ⟨lg, d, t, lv, c, strings.TrimSuffix m (ascii "\n"), none⟩
      = resolvedKeys rt ⟨lg, d, t, lv, c, m, none⟩ := rfl
  have h4 : resolvedData ⟨lg, d, t, lv, c, strings.TrimSuffix m (ascii "\n"), none⟩
      = resolvedData ⟨lg, d, t, lv, c, m, none⟩ := rfl
  rw [h1, h2, h3, h4]
  simp only [List.append_cancel_right_eq, List.append_cancel_left_eq]
  generalize strings.TrimSuffix m (ascii "\n") = T
  rw [← TrimSuffix_eq_self_iff]
  constructor
  · intro h
    by_cases hT : T = []
    · rw [hT]; rfl
    · by_cases hT2 : strings.TrimSuffix T (ascii "\n") = []
      · rw [if_pos hT2, if_neg hT] at h
        exact absurd h (by simp)
      · rw [if_neg hT2, if_neg hT] at h
        exact List.append_cancel_left h
  · intro h
    rw [h]

/-- C16 (amended), at the entry of `TestFormatting`. -/
theorem C16_format_twice_witness :
    (FieldinFormatter.Format GoRuntime.plain testFormatter
        (FieldinFormatter.Format GoRuntime.plain testFormatter
          (log.WithField (ascii "test") (.str (ascii "foo")))).entry).bytes
      = (FieldinFormatter.Format GoRuntime.plain testFormatter
          (log.WithField (ascii "test") (.str (ascii "foo")))).bytes :=
  (C16_format_twice GoRuntime.plain testFormatter testFormatter
    (log.WithField (ascii "test") (.str (ascii "foo"))) rfl rfl).mpr (by decide)

/-! ## C17: what `prefixFieldClashes` leaves alone -/

theorem reservedNames_subset (rc : Bool) (r : GoString) (h : r ∈ reservedNames rc) :
    r ∈ reservedNames true := by
  cases rc
  · unfold reservedNames at h ⊢
    simp only [Bool.false_eq_true, if_false, List.append_nil] at h
    exact List.mem_append_left _ h
  · exact h

theorem reservedNames_false_subset (rc : Bool) (r : GoString) (h : r ∈ reservedNames false) :
    r ∈ reservedNames rc := by
  unfold reservedNames at h ⊢
  simp only [Bool.false_eq_true, if_false, List.append_nil] at h
  exact List.mem_append_left _ h

/-- C17: for every field bag, with `reportCaller` false `prefixFieldClashes` leaves
what `func`, `file`, `fields.func` and `fields.file` hold (or that they are not
keys) as it was; and for either flag, a key that is neither a reserved name
nor `"fields."` + a reserved name holds afterwards what it held before. -/
theorem C17_other_keys_untouched (data : log.Fields) (reportCaller : Bool) (k : GoString)
    (h1 : k ∉ reservedNames true)
    (h2 : ∀ r ∈ reservedNames true, k ≠ ascii "fields." ++ r) :
    (prefixFieldClashes data reportCaller).lookup k = data.lookup k
      ∧ (prefixFieldClashes data false).lookup log.FieldKeyFunc = data.lookup log.FieldKeyFunc
      ∧ (prefixFieldClashes data false).lookup log.FieldKeyFile = data.lookup log.FieldKeyFile
      ∧ (prefixFieldClashes data false).lookup (ascii "fields." ++ log.FieldKeyFunc)
          = data.lookup (ascii "fields." ++ log.FieldKeyFunc)
      ∧ (prefixFieldClashes data false).lookup (ascii "fields." ++ log.FieldKeyFile)
          = data.lookup (ascii "fields." ++ log.FieldKeyFile) := by
  have hfalse : ∀ k' : GoString, k' ∉ reservedNames false →
      (∀ r ∈ reservedNames false, k' ≠ ascii "fields." ++ r) →
      (prefixFieldClashes data false).lookup k' = data.lookup k' :=
    fun k' a b => lookup_resolved_other data false k' a b
  refine ⟨?_, ?_, ?_, ?_, ?_⟩
  · exact lookup_resolved_other data reportCaller k
      (fun h => h1 (reservedNames_subset false k h))
      (fun r hr => h2 r (reservedNames_subset reportCaller r hr))
  · exact hfalse _ (by decide) (by
      intro r _ he
      exact absurd (congrArg List.length he) (by simp [ascii, log.FieldKeyFunc]))
  · exact hfalse _ (by decide) (by
      intro r _ he
      exact absurd (congrArg List.length he) (by simp [ascii, log.FieldKeyFile]))
  · exact hfalse _ (by decide) (by
      intro r hr he
      have := List.append_cancel_left he
      rw [← this] at hr
      exact absurd hr (by decide))
  · exact hfalse _ (by decide) (by
      intro r hr he
      have := List.append_cancel_left he
      rw [← this] at hr
      exact absurd hr (by decide))

/-- C17, at a bag that holds `test`, `time` and `func`. -/
theorem C17_other_keys_untouched_witness :
    (prefixFieldClashes
        ((((∅ : log.Fields).insert (ascii "func") (.str (ascii "f"))).insert
          (ascii "time") (.str (ascii "a"))).insert (ascii "test") (.str (ascii "foo")))
        true).lookup (ascii "test")
      = ((((∅ : log.Fields).insert (ascii "func") (.str (ascii "f"))).insert
          (ascii "time") (.str (ascii "a"))).insert (ascii "test")
            (.str (ascii "foo"))).lookup (ascii "test") := by
  have h1 : ascii "test" ∉ reservedNames true := by decide
  have h2 : ∀ r ∈ reservedNames true, ascii "test" ≠ ascii "fields." ++ r := by
    intro r _ he
    have hl := congrArg List.length he
    rw [List.length_append] at hl
    have e1 : (ascii "test").length = 4 := rfl
    have e2 : (ascii "fields.").length = 7 := rfl
    omega
  exact (C17_other_keys_untouched _ true (ascii "test") h1 h2).1

/-! ## C18: a supplied buffer -/

/-- C18, as stated, fails when the two calls visit the keys in different orders:
for the fields a and b and a buffer that holds `x`, one run returns `x` and
the line with `b="2" a="1"`, while another run without the buffer returns
the line with `a="1" b="2"`. -/
theorem C18_counterexample :
    (FieldinFormatter.Format GoRuntime.plain testFormatter
        { log.WithTwoFields with Buffer := some (ascii "x") }).bytes
      = ascii "x0001-01-01T00:00:00.000 PANIC b=\"2\" a=\"1\" ;\n"
    ∧ (FieldinFormatter.Format GoRuntime.reversed testFormatter
        { log.WithTwoFields with Buffer := none }).bytes
      = ascii "0001-01-01T00:00:00.000 PANIC a=\"1\" b=\"2\" ;\n"
    ∧ (FieldinFormatter.Format GoRuntime.plain testFormatter
        { log.WithTwoFields with Buffer := some (ascii "x") }).bytes
      ≠ ascii "x" ++ (FieldinFormatter.Format GoRuntime.reversed testFormatter
        { log.WithTwoFields with Buffer := none }).bytes := by
  decide

/-- C18 (amended): for every entry whose Buffer holds the bytes p, the bytes `Format`
returns are p followed by exactly the bytes it returns for the same entry with
no buffer in a call that visits the keys of the entry in the same order; the
buffer holds the returned bytes afterwards. -/
theorem C18_buffer_appended (rt1 rt2 : GoRuntime) (f : FieldinFormatter) (entry : log.Entry)
    (p : GoString) (hprint : rt1.isPrintTable = rt2.isPrintTable)
    (horder : resolvedKeys rt1 entry = resolvedKeys rt2 entry)
    (hp : entry.Buffer = some p) :
    (FieldinFormatter.Format rt1 f entry).bytes
        = p ++ (FieldinFormatter.Format rt2 f { entry with Buffer := none }).bytes
      ∧ (FieldinFormatter.Format rt1 f entry).entry.Buffer
        = some (p ++ (FieldinFormatter.Format rt2 f { entry with Buffer := none }).bytes) := by
  obtain ⟨lg, d, t, lv, c, m, bf⟩ := entry
  simp only at hp
  subst hp
  have key : (FieldinFormatter.Format rt1 f ⟨lg, d, t, lv, c, m, some p⟩).bytes
      = p ++ (FieldinFormatter.Format rt2 f ⟨lg, d, t, lv, c, m, none⟩).bytes := by
    rw [Format_bytes_congr rt1 rt2 f _ hprint horder, Format_bytes, Format_bytes]
    have h0 : bufferBytes ⟨lg, d, t, lv, c, m, some p⟩ = p := rfl
    have h1 : bufferBytes ⟨lg, d, t, lv, c, m, none⟩ = [] := rfl
    have h2 : callerSegment ⟨lg, d, t, lv, c, m, some p⟩
        = callerSegment ⟨lg, d, t, lv, c, m, none⟩ := rfl
    have h3 : resolvedKeys rt2 ⟨lg, d, t, lv, c, m, some p⟩
        = resolvedKeys rt2 ⟨lg, d, t, lv, c, m, none⟩ := rfl
    have h4 : resolvedData ⟨lg, d, t, lv, c, m, some p⟩
        = resolvedData ⟨lg, d, t, lv, c, m, none⟩ := rfl
    rw [h0, h1, h2, h3, h4]
    simp only [List.append_assoc, List.nil_append]
  refine ⟨key, ?_⟩
  rw [Format_entry]
  exact congrArg some key

/-- C18 (amended), at the entry of `TestFormatting` with a buffer that holds a line,
in two runs that visit keys in opposite orders (it has one field). -/
theorem C18_buffer_appended_witness :
    GoRuntime.plain.isPrintTable = GoRuntime.reversed.isPrintTable
      ∧ (FieldinFormatter.Format GoRuntime.plain testFormatter
          { log.WithField (ascii "test") (.str (ascii "foo")) with
            Buffer := some (ascii "first\n") }).bytes
        = ascii "first\n" ++ (FieldinFormatter.Format GoRuntime.reversed testFormatter
          { log.WithField (ascii "test") (.str (ascii "foo")) with Buffer := none }).bytes :=
  ⟨rfl,
    (C18_buffer_appended GoRuntime.plain GoRuntime.reversed testFormatter
      { log.WithField (ascii "test") (.str (ascii "foo")) with
        Buffer := some (ascii "first\n") }
      (ascii "first\n") rfl (by decide) rfl).1⟩

/-! ## C19: field values cannot break the line -/

/-- C19: for every entry without a supplied buffer whose message, field keys,
call-site file and function names and formatted timestamp hold no newline
byte, the bytes `Format` returns hold exactly one newline byte, the last one,
whatever the field values are. -/
theorem C19_one_newline (rt : GoRuntime) (f : FieldinFormatter) (entry : log.Entry)
    (hbuf : entry.Buffer = none)
    (hmsg : 10 ∉ entry.Message)
    (hkeys : ∀ k ∈ entry.Data.keys, 10 ∉ k)
    (hcaller : ∀ fr, entry.Caller = some fr → 10 ∉ fr.File ∧ 10 ∉ fr.Function)
    (hts : 10 ∉ entry.Time.Format (FieldinFormatter.timestampFormat f)) :
    (FieldinFormatter.Format rt f entry).bytes.count 10 = 1
      ∧ (FieldinFormatter.Format rt f entry).bytes.getLast? = some 10
      ∧ ∃ pre : GoString, (FieldinFormatter.Format rt f entry).bytes = pre ++ [10] ∧ 10 ∉ pre := by
  have hb : 10 ∉ bufferBytes entry := by
    unfold bufferBytes
    rw [hbuf]
    exact List.not_mem_nil _
  have hlevel : 10 ∉ strings.ToUpper (log.Level.String entry.Level) := by
    intro h
    have := (levelText_bytes entry.Level).2 10 h
    omega
  have hcs : 10 ∉ callerSegment entry := by
    intro h
    refine callerSegment_all entry (fun c => c ≠ 10) (by omega) (by omega) (by omega) (by omega)
      (by omega) (fun c h1 h2 => by omega) ?_ 10 h rfl
    intro fr _ h2
    obtain ⟨h3, h4⟩ := hcaller fr h2
    exact ⟨fun c hc he => h3 (he ▸ hc), fun c hc he => h4 (he ▸ hc)⟩
  have hfs : 10 ∉ ((resolvedKeys rt entry).map (fieldText rt (resolvedData entry))).flatten := by
    intro h
    refine fieldsSegment_all rt entry (fun c => c ≠ 10) (by omega) (by omega) (by decide)
      ?_ ?_ 10 h rfl
    · intro k v hl c hc he
      have hk : k ∈ entry.Data.keys :=
        AList.mem_keys.mp (AList.lookup_isSome.mp (by rw [hl]; rfl))
      exact hkeys k hk (he ▸ hc)
    · intro k v _ c hc he
      have := quoted_ge rt v c hc
      omega
  have hsep : 10 ∉ (if resolvedKeys rt entry = [] then [] else ascii " ;") := by
    split_ifs
    · exact List.not_mem_nil _
    · decide
  have hm : 10 ∉ (if strings.TrimSuffix entry.Message (ascii "\n") = [] then []
      else [32] ++ strings.TrimSuffix entry.Message (ascii "\n")) := by
    intro h
    split_ifs at h
    · exact List.not_mem_nil _ h
    · rcases List.mem_append.mp h with h | h
      · simp at h
      · exact hmsg (mem_TrimSuffix _ _ _ h)
  have hpre : 10 ∉ bufferBytes entry
      ++ entry.Time.Format (FieldinFormatter.timestampFormat f) ++ [32]
      ++ strings.ToUpper (log.Level.String entry.Level) ++ callerSegment entry
      ++ ((resolvedKeys rt entry).map (fieldText rt (resolvedData entry))).flatten
      ++ (if resolvedKeys rt entry = [] then [] else ascii " ;")
      ++ (if strings.TrimSuffix entry.Message (ascii "\n") = [] then []
          else [32] ++ strings.TrimSuffix entry.Message (ascii "\n")) := by
    simp only [List.mem_append, List.mem_singleton, not_or]
    exact ⟨⟨⟨⟨⟨⟨⟨hb, hts⟩, by omega⟩, hlevel⟩, hcs⟩, hfs⟩, hsep⟩, hm⟩
  rw [Format_bytes]
  refine ⟨?_, ?_, _, rfl, hpre⟩
  · rw [List.count_append, List.count_eq_zero.mpr hpre]
    rfl
  · rw [List.getLast?_append]
    rfl

/-- C19, at the entry of `TestQuoting` whose value holds a newline and a carriage
return. -/
theorem C19_one_newline_witness :
    (FieldinFormatter.Format GoRuntime.plain testFormatter
        (log.WithField (ascii "test") (.str (ascii "foo\n\rbar")))).bytes
      = ascii "0001-01-01T00:00:00.000 PANIC test=\"foo\\n\\rbar\" ;\n"
    ∧ (FieldinFormatter.Format GoRuntime.plain testFormatter
        (log.WithField (ascii "test") (.str (ascii "foo\n\rbar")))).bytes.count 10 = 1 := by
  refine ⟨by decide, ?_⟩
  exact (C19_one_newline GoRuntime.plain testFormatter
    (log.WithField (ascii "test") (.str (ascii "foo\n\rbar")))
    rfl (by decide) (by decide) (fun _ h => absurd h (by simp [log.WithField])) (by decide)).1
